import Mathlib

/-!
# TicTacToe (main.cpp): board engine and turn controller

A shallow embedding of the class `TicTacToe` of `src/TicTacToe/main.cpp`.

* The object state is the record `TicTacToe`; every member function takes the
  state and returns the new one (explicit state passing).
* `std::vector` is a `List`.  Reading or writing `v[i]` outside `0 ≤ i < v.size()`
  is undefined behaviour in C++; here every such access is an `Option` and the
  undefined case is `none`.  The same convention is used for dereferencing a
  null `shared_ptr` and for overflow of the `int` product `width * height`.
* `int` values are `Int`; `size_t move_count` is a `Nat` (a counter that grows by
  one per accepted move and cannot wrap in any realisable run).
* A `std::shared_ptr<Player>` is compared by address in the source
  (`active_player == player_1`), so a player handle is `Option Nat`:
  `none` is the null pointer, `some a` the object at address `a`.
* Console output is not modelled, except that `player->GetName()` dereferences
  the handle.
-/

/-- Source: `struct BoardPosition` (two `int` fields). -/
structure BoardPosition where
  row : Int
  col : Int
  deriving DecidableEq, Repr

/-- Source: `enum class GameWinner`. -/
inductive GameWinner where
  | kTie
  | kPlayer1
  | kPlayer2
  deriving DecidableEq, Repr

/-- Source: `enum class GameState`. -/
inductive GameState where
  | kGameOngoing
  | kGameOver
  deriving DecidableEq, Repr

/-- Source: `enum class BoardState`. -/
inductive BoardState where
  | kBlank
  | kX
  | kO
  deriving DecidableEq, Repr

/-- Source: `struct GameStatus`; `winner` is a `std::optional<GameWinner>`. -/
structure GameStatus where
  state : GameState
  winner : Option GameWinner
  deriving DecidableEq, Repr

/-- A `std::shared_ptr<Player>`: `none` is `nullptr`, `some a` points to the
player object at address `a`.  Equality is address equality. -/
abbrev PlayerPtr := Option Nat

/-- The data members of `class TicTacToe`, in declaration order. -/
structure TicTacToe where
  game_state : List (List BoardState)
  move_count : Nat
  width : Int
  height : Int
  row_sums : List Int
  col_sums : List Int
  diag_sums : List Int
  player_1 : PlayerPtr
  player_2 : PlayerPtr
  active_player : PlayerPtr
  inactive_player : PlayerPtr
  deriving DecidableEq, Repr

namespace TicTacToe

open BoardState GameState GameWinner

/-- Largest value of a 32-bit `int`. -/
def INT_MAX : Int := 2147483647

/-- Smallest value of a 32-bit `int`. -/
def INT_MIN : Int := -2147483648

/-- The product `a * b` of two `int`s; signed overflow is undefined. -/
def intMul (a b : Int) : Option Int :=
  if INT_MIN ≤ a * b ∧ a * b ≤ INT_MAX then some (a * b) else none

/-- The increment `++i` of an `int`; signed overflow is undefined. -/
def intInc (i : Int) : Option Int :=
  if i < INT_MAX then some (i + 1) else none

/-- Conversion of an `int` to the 64-bit `size_t` (as in `move_count == width * height`). -/
def toSizeT (a : Int) : Nat := (a % 2 ^ 64).toNat

/-- Read `v[i]` with an `int` index; undefined outside `0 ≤ i < v.size()`. -/
def vecAt {α : Type} (v : List α) (i : Int) : Option α :=
  if 0 ≤ i then v[i.toNat]? else none

/-- Write `v[i] = a` with an `int` index; undefined outside `0 ≤ i < v.size()`. -/
def vecSet {α : Type} (v : List α) (i : Int) (a : α) : Option (List α) :=
  if 0 ≤ i ∧ i.toNat < v.length then some (v.set i.toNat a) else none

/-- The compound assignment `v[i] += d` (or `-=` for negative `d`). -/
def vecAdd (v : List Int) (i : Int) (d : Int) : Option (List Int) :=
  (vecAt v i).bind fun x => vecSet v i (x + d)

/-- Read `game_state[spot.row][spot.col]`. -/
def gridAt (g : List (List BoardState)) (spot : BoardPosition) : Option BoardState :=
  (vecAt g spot.row).bind fun r => vecAt r spot.col

/-- Write `game_state[spot.row][spot.col] = m`. -/
def gridSet (g : List (List BoardState)) (spot : BoardPosition) (m : BoardState) :
    Option (List (List BoardState)) :=
  (vecAt g spot.row).bind fun r => (vecSet r spot.col m).bind fun r1 => vecSet g spot.row r1

/-- Source: the constructor `TicTacToe(int N, player_1_, player_2_)` for `N ≥ 0`:
an `N × N` grid of `kBlank`, zero counters and sums, player 1 active. -/
def fresh (N : Nat) (p1 p2 : PlayerPtr) : TicTacToe :=
  { game_state := List.replicate N (List.replicate N kBlank)
    move_count := 0
    width := N
    height := N
    row_sums := List.replicate N 0
    col_sums := List.replicate N 0
    diag_sums := List.replicate 2 0
    player_1 := p1
    player_2 := p2
    active_player := p1
    inactive_player := p2 }

/-- Source: the constructor with its `int` argument.  A negative `N` converts to
a `size_t` above `max_size()`, so `std::vector` throws and no object exists
(`none`); the player handles are stored unchecked. -/
def construct (N : Int) (p1 p2 : PlayerPtr) : Option TicTacToe :=
  if 0 ≤ N then some (fresh N.toNat p1 p2) else none

/-- Source: `TicTacToe::IsSpotOpen`. -/
def IsSpotOpen (s : TicTacToe) (spot : BoardPosition) : Option Bool :=
  (gridAt s.game_state spot).map fun c => decide (c = kBlank)

/-- Source: `TicTacToe::IsSpotX`. -/
def IsSpotX (s : TicTacToe) (spot : BoardPosition) : Option Bool :=
  (gridAt s.game_state spot).map fun c => decide (c = kX)

/-- Source: `TicTacToe::IsSpotO`. -/
def IsSpotO (s : TicTacToe) (spot : BoardPosition) : Option Bool :=
  (gridAt s.game_state spot).map fun c => decide (c = kO)

/-- Source: `TicTacToe::IsSpotinBoard`. -/
def IsSpotinBoard (s : TicTacToe) (spot : BoardPosition) : Bool :=
  (decide (spot.row ≥ 0) && decide (spot.row < s.width)) &&
    (decide (spot.col ≥ 0) && decide (spot.col < s.height))

/-- Source: `TicTacToe::IsSpotLegal`, `IsSpotOpen(spot) && IsSpotinBoard(spot)`:
the left operand is evaluated first, the right one only when the left is true. -/
def IsSpotLegal (s : TicTacToe) (spot : BoardPosition) : Option Bool :=
  (IsSpotOpen s spot).bind fun isOpen =>
    if isOpen then some (IsSpotinBoard s spot) else some false

/-- Source: `TicTacToe::CheckRowFaster`. -/
def CheckRowFaster (s : TicTacToe) : Bool :=
  s.row_sums.any fun value => decide (value = s.width) || decide (value = -s.width)

/-- Source: `TicTacToe::CheckColFaster`. -/
def CheckColFaster (s : TicTacToe) : Bool :=
  s.col_sums.any fun value => decide (value = s.height) || decide (value = -s.height)

/-- Source: `TicTacToe::CheckDiagonalFaster`. -/
def CheckDiagonalFaster (s : TicTacToe) : Bool :=
  s.diag_sums.any fun value => decide (value = s.width) || decide (value = -s.width)

/-- Source: `TicTacToe::CheckWin`; the argument is unused in the source too. -/
def CheckWin (s : TicTacToe) (_start_check : BoardPosition) : Bool :=
  CheckRowFaster s || CheckColFaster s || CheckDiagonalFaster s

/-- One branch of `SetBoardState` after the legality test: store `m` in the
cell, add `d` to the row sum and the column sum, and to `diag_sums[0]` when
`row == col`, else to `diag_sums[1]` when `row == width - col - 1`. -/
def placeMark (s : TicTacToe) (spot : BoardPosition) (m : BoardState) (d : Int) :
    Option TicTacToe :=
  (gridSet s.game_state spot m).bind fun g =>
  (vecAdd s.row_sums spot.row d).bind fun rs =>
  (vecAdd s.col_sums spot.col d).bind fun cs =>
  (if spot.row = spot.col then vecAdd s.diag_sums 0 d
   else if spot.row = s.width - spot.col - 1 then vecAdd s.diag_sums 1 d
   else some s.diag_sums).bind fun ds =>
  some { s with game_state := g, row_sums := rs, col_sums := cs, diag_sums := ds }

/-- Source: `TicTacToe::SetBoardState`.  Returns the `bool` result and the new
state. -/
def SetBoardState (s : TicTacToe) (spot : BoardPosition) (player : PlayerPtr) :
    Option (Bool × TicTacToe) :=
  (IsSpotLegal s spot).bind fun legal =>
    if !legal then some (false, s)
    else if player = s.player_1 then
      player.bind fun _name => (placeMark s spot kX 1).map fun s1 => (true, s1)
    else
      player.bind fun _name => (placeMark s spot kO (-1)).map fun s1 => (true, s1)

/-- The statement `move_count++` of `ApplyMove`. -/
def incMoveCount (s : TicTacToe) : TicTacToe :=
  { s with move_count := s.move_count + 1 }

/-- The statement `std::swap(active_player, inactive_player)` of `ApplyMove`. -/
def swapPlayers (s : TicTacToe) : TicTacToe :=
  { s with active_player := s.inactive_player, inactive_player := s.active_player }

/-- Source: `TicTacToe::ApplyMove`.  Returns the status and the new state. -/
def ApplyMove (s : TicTacToe) (move : BoardPosition) : Option (GameStatus × TicTacToe) :=
  (SetBoardState s move s.active_player).bind fun (result, s1) =>
    if result then
      let s2 := incMoveCount s1
      if CheckWin s2 move then
        let winner := if s2.active_player = s2.player_1 then kPlayer1 else kPlayer2
        some (⟨kGameOver, some winner⟩, s2)
      else
        let s3 := swapPlayers s2
        (intMul s3.width s3.height).bind fun area =>
          if s3.move_count = toSizeT area then some (⟨kGameOver, some kTie⟩, s3)
          else some (⟨kGameOngoing, none⟩, s3)
    else
      some (⟨kGameOver, some kTie⟩, s1)

/-- A driver calling `ApplyMove` once per listed position, whatever the
statuses; gives the statuses in call order and the final state. -/
def applyMoves (s : TicTacToe) : List BoardPosition → Option (List GameStatus × TicTacToe)
  | [] => some ([], s)
  | m :: ms =>
    (ApplyMove s m).bind fun (st, s1) =>
      (applyMoves s1 ms).map fun (sts, s2) => (st :: sts, s2)

/-- The status value `GameStatus{kGameOngoing, nullopt}`. -/
def ongoing : GameStatus := ⟨kGameOngoing, none⟩

/-! ## Specification vocabulary: cells, lines and invariants -/

/-- The mark in row `r`, column `c` of a grid (`kBlank` outside the grid). -/
def cellAt (g : List (List BoardState)) (r c : Nat) : BoardState :=
  (g.getD r []).getD c kBlank

/-- What a mark adds to the sum of a line it lies on: `+1` for `kX`, `-1` for
`kO`. -/
def sign : BoardState → Int
  | kBlank => 0
  | kX => 1
  | kO => -1

/-- Every cell of row `r` holds the mark `m`. -/
def rowAll (g : List (List BoardState)) (N r : Nat) (m : BoardState) : Prop :=
  ∀ c, c < N → cellAt g r c = m

/-- Every cell of column `c` holds the mark `m`. -/
def colAll (g : List (List BoardState)) (N c : Nat) (m : BoardState) : Prop :=
  ∀ r, r < N → cellAt g r c = m

/-- Every cell of the main diagonal (`row == col`) holds the mark `m`. -/
def diagAll (g : List (List BoardState)) (N : Nat) (m : BoardState) : Prop :=
  ∀ i, i < N → cellAt g i i = m

/-- Every cell of the anti-diagonal (`row == N - 1 - col`) holds the mark `m`. -/
def antiDiagAll (g : List (List BoardState)) (N : Nat) (m : BoardState) : Prop :=
  ∀ i, i < N → cellAt g i (N - 1 - i) = m

instance (g : List (List BoardState)) (N r : Nat) (m : BoardState) :
    Decidable (rowAll g N r m) := by unfold rowAll; infer_instance

instance (g : List (List BoardState)) (N c : Nat) (m : BoardState) :
    Decidable (colAll g N c m) := by unfold colAll; infer_instance

instance (g : List (List BoardState)) (N : Nat) (m : BoardState) :
    Decidable (diagAll g N m) := by unfold diagAll; infer_instance

instance (g : List (List BoardState)) (N : Nat) (m : BoardState) :
    Decidable (antiDiagAll g N m) := by unfold antiDiagAll; infer_instance

/-- Some line of the `N × N` grid (a row, a column, the main diagonal or the
anti-diagonal) has all its cells equal to `m`. -/
def someLineAll (g : List (List BoardState)) (N : Nat) (m : BoardState) : Prop :=
  (∃ r, r < N ∧ rowAll g N r m) ∨ (∃ c, c < N ∧ colAll g N c m) ∨
    diagAll g N m ∨ antiDiagAll g N m

instance (g : List (List BoardState)) (N : Nat) (m : BoardState) :
    Decidable (someLineAll g N m) := by unfold someLineAll; infer_instance

/-- Some line through the cell `(r, c)` of the `N × N` grid has all its cells
equal to `m`: row `r`, column `c`, the main diagonal when `r = c`, or the
anti-diagonal when `r + c + 1 = N`. -/
def lineThroughAll (g : List (List BoardState)) (N r c : Nat) (m : BoardState) : Prop :=
  rowAll g N r m ∨ colAll g N c m ∨ (r = c ∧ diagAll g N m) ∨
    (r + c + 1 = N ∧ antiDiagAll g N m)

instance (g : List (List BoardState)) (N r c : Nat) (m : BoardState) :
    Decidable (lineThroughAll g N r c m) := by unfold lineThroughAll; infer_instance

/-- The mark the source assigns to a mover: `kX` when the handle equals
`player_1`, `kO` otherwise (the test `player == player_1` of `SetBoardState`). -/
def markOf (s : TicTacToe) (player : PlayerPtr) : BoardState :=
  if player = s.player_1 then kX else kO

/-- The winner the source names for a mover (the test
`active_player == player_1` of `ApplyMove`). -/
def winnerOf (s : TicTacToe) (player : PlayerPtr) : GameWinner :=
  if player = s.player_1 then kPlayer1 else kPlayer2

/-- Shape invariant established by the constructor for dimension `N`: the grid
is `N × N`, there are `N` row sums, `N` column sums and two diagonal sums. -/
structure WellFormed (N : Nat) (s : TicTacToe) : Prop where
  width_eq : s.width = N
  height_eq : s.height = N
  rows : s.game_state.length = N
  cols : ∀ row ∈ s.game_state, row.length = N
  row_sums_len : s.row_sums.length = N
  col_sums_len : s.col_sums.length = N
  diag_sums_len : s.diag_sums.length = 2

/-- What the running sums hold in terms of the grid.  Rows, columns and the
main diagonal are exact; `diag_sums[1]` covers the anti-diagonal cells with
`row ≠ col`, because `SetBoardState` reaches its anti-diagonal update only in
the `else` of the `row == col` test. -/
structure SumsTrack (N : Nat) (s : TicTacToe) : Prop where
  row : ∀ r, r < N → s.row_sums.getD r 0 = ∑ c in Finset.range N, sign (cellAt s.game_state r c)
  col : ∀ c, c < N → s.col_sums.getD c 0 = ∑ r in Finset.range N, sign (cellAt s.game_state r c)
  diag : s.diag_sums.getD 0 0 = ∑ i in Finset.range N, sign (cellAt s.game_state i i)
  anti : s.diag_sums.getD 1 0 =
    ∑ i in Finset.range N,
      if i = N - 1 - i then 0 else sign (cellAt s.game_state i (N - 1 - i))

/-- The effect of storing mark `m` with increment `d` at row `r`, column `c`
(one branch of `SetBoardState`), relating the state before (`s`) and after
(`s1`). -/
structure Placed (N : Nat) (s : TicTacToe) (r c : Nat) (m : BoardState) (d : Int)
    (s1 : TicTacToe) : Prop where
  cell : ∀ i j, cellAt s1.game_state i j =
    if i = r ∧ j = c then m else cellAt s.game_state i j
  rsum : ∀ i, s1.row_sums.getD i 0 = s.row_sums.getD i 0 + if i = r then d else 0
  csum : ∀ j, s1.col_sums.getD j 0 = s.col_sums.getD j 0 + if j = c then d else 0
  dsum : s1.diag_sums.getD 0 0 = s.diag_sums.getD 0 0 + if r = c then d else 0
  asum : s1.diag_sums.getD 1 0 =
    s.diag_sums.getD 1 0 + if r ≠ c ∧ r + c + 1 = N then d else 0
  wf : WellFormed N s1
  count : s1.move_count = s.move_count
  p1 : s1.player_1 = s.player_1
  p2 : s1.player_2 = s.player_2
  act : s1.active_player = s.active_player
  inact : s1.inactive_player = s.inactive_player

/-- The two player handles are the objects at addresses `a` and `b`, and
`active_player`, `inactive_player` are these two handles in one order or the
other. -/
structure Seated (a b : Nat) (s : TicTacToe) : Prop where
  p1 : s.player_1 = some a
  p2 : s.player_2 = some b
  turn : (s.active_player = some a ∧ s.inactive_player = some b) ∨
    (s.active_player = some b ∧ s.inactive_player = some a)

/-- The `k`-th call of a run is legal and completes no line: in the state
reached by the first `k` calls the `k`-th position passes `IsSpotLegal`, and
the state the `k`-th call leaves has no line sum of magnitude `N` (`CheckWin`
is false).  Nothing is required where an earlier call, or the call itself,
does not return. -/
def legalNoLineAt (s0 : TicTacToe) (moves : List BoardPosition) (k : Nat) : Bool :=
  match moves[k]?, applyMoves s0 (moves.take k) with
  | some m, some (_, sk) =>
    (IsSpotLegal sk m == some true) &&
      (match ApplyMove sk m with
       | some (_, s') => !CheckWin s' m
       | none => true)
  | _, _ => true

/-! ## Counting marks -/

/-- The cells of row `r`, columns `0 .. N-1`. -/
def rowCells (g : List (List BoardState)) (N r : Nat) : List BoardState :=
  (List.range N).map fun c => cellAt g r c

/-- The cells of column `c`, rows `0 .. N-1`. -/
def colCells (g : List (List BoardState)) (N c : Nat) : List BoardState :=
  (List.range N).map fun r => cellAt g r c

/-- The cells of the main diagonal (`row == col`). -/
def diagCells (g : List (List BoardState)) (N : Nat) : List BoardState :=
  (List.range N).map fun i => cellAt g i i

/-- The cells of the anti-diagonal (`row == N - 1 - col`). -/
def antiDiagCells (g : List (List BoardState)) (N : Nat) : List BoardState :=
  (List.range N).map fun i => cellAt g i (N - 1 - i)

/-- All cells of the `N × N` grid, row by row. -/
def allCells (g : List (List BoardState)) (N : Nat) : List BoardState :=
  ((List.range N).map fun r => rowCells g N r).flatten

/-- Number of X minus number of O among the given cells. -/
def balance (cells : List BoardState) : Int :=
  (cells.count kX : Int) - (cells.count kO : Int)

/-- Number of cells of the `N × N` grid that are not `kBlank`. -/
def nonEmptyCount (g : List (List BoardState)) (N : Nat) : Nat :=
  (allCells g N).countP fun m => decide (m ≠ kBlank)

/-! ## Move sources and the play loop -/

/-- Concatenation of the position lists produced by consecutive loop
iterations; undefined as soon as one iteration is. -/
def collect : List (Option (List BoardPosition)) → Option (List BoardPosition)
  | [] => some []
  | x :: xs => x.bind fun a => (collect xs).map fun b => a ++ b

/-- Source: one iteration of the inner loop of `Player::GetPossibleMoves` with
the `int` counter at `col`: read `board[row][col]`, push the position when the
cell is `kBlank`, then `col++`. -/
def scanCell (board : List (List BoardState)) (row col : Nat) : Option (List BoardPosition) :=
  (gridAt board ⟨(row : Int), (col : Int)⟩).bind fun c =>
    (intInc (col : Int)).map fun _ =>
      if c = kBlank then [⟨(row : Int), (col : Int)⟩] else []

/-- Source: one iteration of the outer loop of `Player::GetPossibleMoves` with
the `int` counter at `row`: the inner loop over the columns
`0 .. board[0].size()-1`, then `++row`. -/
def scanRow (board : List (List BoardState)) (row : Nat) : Option (List BoardPosition) :=
  (collect ((List.range (board.getD 0 []).length).map fun col => scanCell board row col)).bind
    fun found => (intInc (row : Int)).map fun _ => found

/-- Source: `Player::GetPossibleMoves`.  The counters `row` and `col` are
`int`s that start at 0 and are compared with the vector sizes; an iteration is
entered for every counter value below the size, and the increment that ends it
is undefined when the counter is `INT_MAX`.  So the result is undefined when
the board has more than `INT_MAX` rows, or rows and more than `INT_MAX`
columns. -/
def GetPossibleMoves (board : List (List BoardState)) : Option (List BoardPosition) :=
  collect ((List.range board.length).map fun row => scanRow board row)

/-- Source: `TicTacToe::GetBoardState`. -/
def GetBoardState (s : TicTacToe) : List (List BoardState) := s.game_state

/-- The virtual call `Player::Move(board)` as the play loop sees it.  The first
argument is the number of the loop iteration and stands for whatever the player
consults besides the board (keyboard, random device).  Outer `none`: the call
has no defined result; `some none`: it returns `std::nullopt`. -/
abbrev MoveSource := Nat → List (List BoardState) → Option (Option BoardPosition)

/-- Source: `RandomPlayer::Move`; `dis n` stands for the value drawn by
`dis(gen)` in iteration `n`, which the distribution keeps in
`0 .. moves_list.size()-1`. -/
def RandomPlayer.Move (dis : Nat → Nat) : MoveSource := fun n board =>
  (GetPossibleMoves board).bind fun moves_list =>
    if moves_list.isEmpty then some none
    else (moves_list[dis n % moves_list.length]?).map some

/-- Which branch one iteration of the loop of `PlayTicTacToe` took: no
candidate (`break`), an illegal candidate (the branch that prints "An illegal
move was made" and `continue`s), or a call of `ApplyMove` with its status.
This log has no counterpart among the data of the source; it records the
control flow. -/
inductive LoopEvent where
  | noCandidate
  | illegal (mv : BoardPosition)
  | applied (mv : BoardPosition) (st : GameStatus)
  deriving DecidableEq, Repr

/-- Source: the `while` loop of `TicTacToe::PlayTicTacToe`.  `heap a` is the
`Move` of the player object at address `a`; `fuel` bounds the number of
iterations (`none` when it runs out, or when a step is undefined); `n` counts
iterations.  Returns the final `game_result`, the final state and the log of
the iterations. -/
def playLoop (heap : Nat → MoveSource) :
    Nat → Nat → TicTacToe → GameStatus → Option (GameStatus × TicTacToe × List LoopEvent)
  | 0, _, s, game_result =>
    if game_result.state = kGameOngoing then none else some (game_result, s, [])
  | fuel + 1, n, s, game_result =>
    if game_result.state = kGameOngoing then
      s.active_player.bind fun a =>
      (heap a n (GetBoardState s)).bind fun curr_move =>
        match curr_move with
        | none => some ({ game_result with state := kGameOver }, s, [LoopEvent.noCandidate])
        | some mv =>
          (IsSpotLegal s mv).bind fun legal =>
            if !legal then
              (playLoop heap fuel (n + 1) s game_result).map fun r =>
                (r.1, r.2.1, LoopEvent.illegal mv :: r.2.2)
            else
              (ApplyMove s mv).bind fun res =>
                (playLoop heap fuel (n + 1) res.2 res.1).map fun r =>
                  (r.1, r.2.1, LoopEvent.applied mv res.1 :: r.2.2)
    else some (game_result, s, [])

/-- Source: `TicTacToe::PlayTicTacToe` up to the end of the loop (the rest only
prints): `game_result` starts as the default `GameStatus`. -/
def PlayTicTacToe (heap : Nat → MoveSource) (fuel : Nat) (s : TicTacToe) :
    Option (GameStatus × TicTacToe × List LoopEvent) :=
  playLoop heap fuel 0 s ⟨kGameOngoing, none⟩

/-- A move source that, like the reference players, answers with a position
taken from `GetPossibleMoves` of the board it is shown, and with no candidate
only when that list is empty. -/
def PicksPossible (src : MoveSource) : Prop :=
  ∀ n board moves_list, GetPossibleMoves board = some moves_list →
    (moves_list = [] → src n board = some none) ∧
    (moves_list ≠ [] → ∃ p, p ∈ moves_list ∧ src n board = some (some p))

/-! ## The grid-rescan checks -/

/-- Comparison `i < v.size()` of an `int` with a `size_t`: the `int` is
converted to unsigned, so a negative `i` compares as larger than any size. -/
def ltSize (i : Int) (size : Nat) : Bool := decide (0 ≤ i) && decide (i < (size : Int))

/-- Source: `TicTacToe::CheckRow`. -/
def CheckRow (s : TicTacToe) (start_check : BoardPosition) : Option Bool :=
  (gridAt s.game_state start_check).bind fun expected_symbol =>
    (vecAt s.game_state start_check.row).map fun row =>
      row.all fun col => decide (col = expected_symbol)

/-- The loop of `CheckCol` over the remaining rows: the first cell that
differs from the expected symbol ends it with `false`. -/
def checkColLoop (col : Int) (expected_symbol : BoardState) :
    List (List BoardState) → Option Bool
  | [] => some true
  | row :: rows =>
    (vecAt row col).bind fun c =>
      if c ≠ expected_symbol then some false else checkColLoop col expected_symbol rows

/-- Source: `TicTacToe::CheckCol`. -/
def CheckCol (s : TicTacToe) (start_check : BoardPosition) : Option Bool :=
  (gridAt s.game_state start_check).bind fun expected_symbol =>
    checkColLoop start_check.col expected_symbol s.game_state

/-- The value `game_state[0].size()` in a loop condition (undefined on an empty
grid). -/
def firstRowSize (g : List (List BoardState)) : Option Nat := (g[0]?).map List.length

/-- One `for` loop of `CheckDiagonal`: from `(row, col)` in steps `(dr, dc)`
while `cond row col`; each iteration increments the count and, when the cell
differs from the start cell, clears the flag and breaks.  Returns flag and
count. -/
def diagWalk (g : List (List BoardState)) (start_check : BoardPosition)
    (cond : Int → Int → Option Bool) (dr dc : Int) :
    Nat → Int → Int → Bool → Int → Option (Bool × Int)
  | 0, row, col, flag, count =>
    (cond row col).bind fun go => if go then none else some (flag, count)
  | fuel + 1, row, col, flag, count =>
    (cond row col).bind fun go =>
      if go then
        (gridAt g start_check).bind fun a =>
        (gridAt g ⟨row, col⟩).bind fun b =>
          if a ≠ b then some (false, count + 1)
          else diagWalk g start_check cond dr dc fuel (row + dr) (col + dc) flag (count + 1)
      else some (flag, count)

/-- Source: `TicTacToe::CheckDiagonal`: two walks along the anti-diagonal
direction sharing one flag and one count, two along the main-diagonal
direction sharing another.  Each walk makes at most `game_state.size()`
iterations. -/
def CheckDiagonal (s : TicTacToe) (start_check : BoardPosition) : Option Bool :=
  let g := s.game_state
  let fuel := g.length + 1
  let r := start_check.row
  let c := start_check.col
  (diagWalk g start_check
    (fun row col => if row ≥ 0 then (firstRowSize g).map fun n => ltSize col n else some false)
    (-1) 1 fuel (r - 1) (c + 1) true 1).bind fun up =>
  (diagWalk g start_check
    (fun row col => some (ltSize row g.length && decide (col ≥ 0)))
    1 (-1) fuel (r + 1) (c - 1) up.1 up.2).bind fun anti =>
  (diagWalk g start_check
    (fun row col => some (decide (row ≥ 0) && decide (col ≥ 0)))
    (-1) (-1) fuel (r - 1) (c - 1) true 1).bind fun upLeft =>
  (diagWalk g start_check
    (fun row col =>
      if ltSize row g.length then (firstRowSize g).map fun n => ltSize col n else some false)
    1 1 fuel (r + 1) (c + 1) upLeft.1 upLeft.2).bind fun main =>
  some ((main.1 && decide (main.2 = s.width)) || (anti.1 && decide (anti.2 = s.width)))

/-- The rescan test `CheckRow(m) || CheckCol(m) || CheckDiagonal(m)`, evaluated
left to right with short-circuit. -/
def rescanWin (s : TicTacToe) (m : BoardPosition) : Option Bool :=
  (CheckRow s m).bind fun a =>
    if a then some true
    else (CheckCol s m).bind fun b =>
      if b then some true else CheckDiagonal s m

/-! ## Row-major enumeration of the blank cells -/

/-- The blank cells among columns `0 .. C-1` of row `r`, by increasing column. -/
def blankInRow (board : List (List BoardState)) (C r : Nat) : List BoardPosition :=
  ((List.range C).map fun c =>
    if cellAt board r c = kBlank then [(⟨(r : Int), (c : Int)⟩ : BoardPosition)] else []).flatten

/-- The blank cells of an `R × C` board in row-major order. -/
def blankPositions (board : List (List BoardState)) (R C : Nat) : List BoardPosition :=
  ((List.range R).map fun r => blankInRow board C r).flatten

/-- Row-major order on positions: smaller row, or same row and smaller column. -/
def rowMajorLt (p q : BoardPosition) : Prop :=
  p.row < q.row ∨ (p.row = q.row ∧ p.col < q.col)

instance (p q : BoardPosition) : Decidable (rowMajorLt p q) := by
  unfold rowMajorLt; infer_instance

/-! ## Example positions -/

/-- Example game: dimension 3, player objects at addresses 1 and 2. -/
def game3 : TicTacToe := fresh 3 (some 1) (some 2)

/-- Example run: X takes (0,0) and (0,1), O takes (1,1) and (2,2). -/
def rowRun : List BoardPosition := [⟨0, 0⟩, ⟨1, 1⟩, ⟨0, 1⟩, ⟨2, 2⟩]

/-- The state after `rowRun` on `game3`: X to move, row 0 lacks only (0,2). -/
def rowBefore : TicTacToe :=
  { game_state := [[kX, kX, kBlank], [kBlank, kO, kBlank], [kBlank, kBlank, kO]]
    move_count := 4
    width := 3
    height := 3
    row_sums := [2, -1, -1]
    col_sums := [1, 0, -1]
    diag_sums := [-1, 0]
    player_1 := some 1
    player_2 := some 2
    active_player := some 1
    inactive_player := some 2 }

/-- The state `rowBefore` after `SetBoardState` stored X at (0,2). -/
def rowPlaced : TicTacToe :=
  { game_state := [[kX, kX, kX], [kBlank, kO, kBlank], [kBlank, kBlank, kO]]
    move_count := 4
    width := 3
    height := 3
    row_sums := [3, -1, -1]
    col_sums := [1, 0, 0]
    diag_sums := [-1, 1]
    player_1 := some 1
    player_2 := some 2
    active_player := some 1
    inactive_player := some 2 }

/-- Example run: X takes the anti-diagonal (0,2), (1,1), (2,0) of a 3 × 3
board while O takes (0,0) and (0,1). -/
def antiRun : List BoardPosition := [⟨0, 2⟩, ⟨0, 0⟩, ⟨1, 1⟩, ⟨0, 1⟩, ⟨2, 0⟩]

/-- Example run: nine moves filling a 3 × 3 board without a complete line. -/
def drawRun : List BoardPosition :=
  [⟨0, 0⟩, ⟨0, 1⟩, ⟨0, 2⟩, ⟨1, 1⟩, ⟨1, 0⟩, ⟨1, 2⟩, ⟨2, 1⟩, ⟨2, 0⟩, ⟨2, 2⟩]

/-! ## Reading the grid and the legality test -/

theorem vecAt_eq_some {α : Type} {v : List α} {i : Int} {a : α} (h : vecAt v i = some a) :
    0 ≤ i ∧ v[i.toNat]? = some a := by
  unfold vecAt at h
  split at h
  · exact ⟨‹_›, h⟩
  · cases h

theorem vecAt_nat {α : Type} (v : List α) (i : Nat) : vecAt v (i : Int) = v[i]? := by
  simp [vecAt]

theorem vecSet_nat {α : Type} (v : List α) (i : Nat) (a : α) (h : i < v.length) :
    vecSet v (i : Int) a = some (v.set i a) := by
  simp [vecSet, h]

theorem vecAdd_nat (v : List Int) (i : Nat) (d : Int) (h : i < v.length) :
    vecAdd v (i : Int) d = some (v.set i (v.getD i 0 + d)) := by
  simp [vecAdd, vecAt_nat, vecSet_nat, h, List.getD_eq_getElem?_getD, List.getElem?_eq_getElem h]

theorem getD_set_add (v : List Int) (i j : Nat) (x : Int) (h : i < v.length) :
    (v.set i x).getD j 0 = if j = i then x else v.getD j 0 := by
  simp only [List.getD_eq_getElem?_getD, List.getElem?_set]
  by_cases hij : i = j
  · subst hij; simp [h]
  · have : ¬ j = i := fun e => hij e.symm
    simp [hij, this]

theorem gridAt_eq_some {g : List (List BoardState)} {spot : BoardPosition} {m : BoardState}
    (h : gridAt g spot = some m) :
    0 ≤ spot.row ∧ 0 ≤ spot.col ∧
      ∃ row, g[spot.row.toNat]? = some row ∧ row[spot.col.toNat]? = some m := by
  unfold gridAt at h
  rcases Option.bind_eq_some.1 h with ⟨row, hrow, hcell⟩
  have h1 := vecAt_eq_some hrow
  have h2 := vecAt_eq_some hcell
  exact ⟨h1.1, h2.1, row, h1.2, h2.2⟩

theorem cellAt_of_getElem? {g : List (List BoardState)} {r c : Nat} {row : List BoardState}
    {m : BoardState} (hr : g[r]? = some row) (hc : row[c]? = some m) : cellAt g r c = m := by
  simp [cellAt, List.getD_eq_getElem?_getD, hr, hc]

theorem cellAt_of_gridAt {g : List (List BoardState)} {spot : BoardPosition} {m : BoardState}
    (h : gridAt g spot = some m) : cellAt g spot.row.toNat spot.col.toNat = m := by
  obtain ⟨_, _, row, hr, hc⟩ := gridAt_eq_some h
  exact cellAt_of_getElem? hr hc

theorem gridAt_nat (g : List (List BoardState)) (r c : Nat) :
    gridAt g ⟨r, c⟩ = (g[r]?).bind fun row => row[c]? := by
  simp [gridAt, vecAt_nat]

theorem IsSpotLegal_eq_true {s : TicTacToe} {spot : BoardPosition} :
    IsSpotLegal s spot = some true ↔
      gridAt s.game_state spot = some kBlank ∧ IsSpotinBoard s spot = true := by
  unfold IsSpotLegal IsSpotOpen
  cases hg : gridAt s.game_state spot with
  | none => simp
  | some m => cases m <;> simp

theorem IsSpotLegal_eq_false {s : TicTacToe} {spot : BoardPosition} :
    IsSpotLegal s spot = some false ↔
      ∃ m, gridAt s.game_state spot = some m ∧ (m = kBlank → IsSpotinBoard s spot = false) := by
  unfold IsSpotLegal IsSpotOpen
  cases hg : gridAt s.game_state spot with
  | none => simp
  | some m => cases m <;> simp

theorem IsSpotinBoard_eq_true {s : TicTacToe} {spot : BoardPosition} :
    IsSpotinBoard s spot = true ↔
      (0 ≤ spot.row ∧ spot.row < s.width) ∧ (0 ≤ spot.col ∧ spot.col < s.height) := by
  simp [IsSpotinBoard]

/-! ## The effect of one placement -/

theorem gridSet_nat (g : List (List BoardState)) (r c : Nat) (m : BoardState)
    (row : List BoardState) (hr : g[r]? = some row) (hc : c < row.length) :
    gridSet g ⟨r, c⟩ m = some (g.set r (row.set c m)) := by
  have hlen : r < g.length := by
    rcases List.getElem?_eq_some.1 hr with ⟨h, _⟩
    exact h
  simp [gridSet, vecAt_nat, hr, vecSet_nat, hc, hlen]

theorem cellAt_set (g : List (List BoardState)) (r c : Nat) (m : BoardState)
    (row : List BoardState) (hr : g[r]? = some row) (hc : c < row.length) (i j : Nat) :
    cellAt (g.set r (row.set c m)) i j = if i = r ∧ j = c then m else cellAt g i j := by
  have hlen : r < g.length := by
    rcases List.getElem?_eq_some.1 hr with ⟨h, _⟩
    exact h
  unfold cellAt
  simp only [List.getD_eq_getElem?_getD, List.getElem?_set]
  by_cases hi : r = i
  · subst hi
    by_cases hj : c = j
    · subst hj; simp [hlen, hc]
    · have : ¬ j = c := fun e => hj e.symm
      simp [hlen, hj, this, hr]
  · have : ¬ i = r := fun e => hi e.symm
    simp [hi, this]

theorem wellFormed_getElem? {N : Nat} {s : TicTacToe} (wf : WellFormed N s) {r : Nat}
    (hr : r < N) : ∃ row, s.game_state[r]? = some row ∧ row.length = N := by
  have hlen : r < s.game_state.length := by rw [wf.rows]; exact hr
  refine ⟨s.game_state[r], List.getElem?_eq_getElem hlen, ?_⟩
  exact wf.cols _ (List.getElem_mem hlen)

theorem placeMark_eq {N : Nat} {s : TicTacToe} (wf : WellFormed N s) {r c : Nat}
    (hr : r < N) (hc : c < N) (m : BoardState) (d : Int) (row : List BoardState)
    (hrow : s.game_state[r]? = some row) :
    placeMark s ⟨r, c⟩ m d = some
      { s with game_state := s.game_state.set r (row.set c m),
               row_sums := s.row_sums.set r (s.row_sums.getD r 0 + d),
               col_sums := s.col_sums.set c (s.col_sums.getD c 0 + d),
               diag_sums :=
                 if r = c then s.diag_sums.set 0 (s.diag_sums.getD 0 0 + d)
                 else if r + c + 1 = N then s.diag_sums.set 1 (s.diag_sums.getD 1 0 + d)
                 else s.diag_sums } := by
  have hrowlen : row.length = N := by
    obtain ⟨row1, h1, h2⟩ := wellFormed_getElem? wf hr
    rw [hrow] at h1
    cases h1
    exact h2
  have hcr : c < row.length := by rw [hrowlen]; exact hc
  have hrs : r < s.row_sums.length := by rw [wf.row_sums_len]; exact hr
  have hcs : c < s.col_sums.length := by rw [wf.col_sums_len]; exact hc
  have hd0 : 0 < s.diag_sums.length := by rw [wf.diag_sums_len]; decide
  have hd1 : 1 < s.diag_sums.length := by rw [wf.diag_sums_len]; decide
  have hv0 : vecAdd s.diag_sums 0 d = some (s.diag_sums.set 0 (s.diag_sums.getD 0 0 + d)) :=
    vecAdd_nat s.diag_sums 0 d hd0
  have hv1 : vecAdd s.diag_sums 1 d = some (s.diag_sums.set 1 (s.diag_sums.getD 1 0 + d)) :=
    vecAdd_nat s.diag_sums 1 d hd1
  have hcond2 : ((r : Int) = s.width - (c : Int) - 1) ↔ r + c + 1 = N := by
    rw [wf.width_eq]; omega
  have hcond1 : ((r : Int) = (c : Int)) ↔ r = c := by omega
  unfold placeMark
  simp only [gridSet_nat _ _ _ _ _ hrow hcr, vecAdd_nat _ _ _ hrs, vecAdd_nat _ _ _ hcs,
    Option.some_bind, hcond1, hcond2, hv0, hv1]
  by_cases h1 : r = c
  · simp only [h1, if_true, Option.some_bind]
  · by_cases h2 : r + c + 1 = N
    · simp only [h1, h2, if_true, if_false, Option.some_bind]
    · simp only [h1, h2, if_false, Option.some_bind]

theorem placeMark_spec {N : Nat} {s : TicTacToe} (wf : WellFormed N s) {r c : Nat}
    (hr : r < N) (hc : c < N) (m : BoardState) (d : Int) :
    ∃ s1, placeMark s ⟨r, c⟩ m d = some s1 ∧ Placed N s r c m d s1 := by
  obtain ⟨row, hrow, hrowlen⟩ := wellFormed_getElem? wf hr
  have hcr : c < row.length := by rw [hrowlen]; exact hc
  have hrs : r < s.row_sums.length := by rw [wf.row_sums_len]; exact hr
  have hcs : c < s.col_sums.length := by rw [wf.col_sums_len]; exact hc
  have hd0 : 0 < s.diag_sums.length := by rw [wf.diag_sums_len]; decide
  have hd1 : 1 < s.diag_sums.length := by rw [wf.diag_sums_len]; decide
  refine ⟨_, placeMark_eq wf hr hc m d row hrow, ?_⟩
  constructor
  · intro i j; exact cellAt_set _ _ _ _ _ hrow hcr i j
  · intro i
    show (s.row_sums.set r (s.row_sums.getD r 0 + d)).getD i 0 = _
    rw [getD_set_add _ _ _ _ hrs]
    by_cases h : i = r
    · rw [if_pos h, if_pos h, h]
    · rw [if_neg h, if_neg h, add_zero]
  · intro j
    show (s.col_sums.set c (s.col_sums.getD c 0 + d)).getD j 0 = _
    rw [getD_set_add _ _ _ _ hcs]
    by_cases h : j = c
    · rw [if_pos h, if_pos h, h]
    · rw [if_neg h, if_neg h, add_zero]
  · show (if r = c then s.diag_sums.set 0 (s.diag_sums.getD 0 0 + d)
        else if r + c + 1 = N then s.diag_sums.set 1 (s.diag_sums.getD 1 0 + d)
        else s.diag_sums).getD 0 0 = _
    by_cases h1 : r = c
    · rw [if_pos h1, if_pos h1, getD_set_add _ _ _ _ hd0, if_pos rfl]
    · rw [if_neg h1, if_neg h1, add_zero]
      by_cases h2 : r + c + 1 = N
      · rw [if_pos h2, getD_set_add _ _ _ _ hd1, if_neg (by decide)]
      · rw [if_neg h2]
  · show (if r = c then s.diag_sums.set 0 (s.diag_sums.getD 0 0 + d)
        else if r + c + 1 = N then s.diag_sums.set 1 (s.diag_sums.getD 1 0 + d)
        else s.diag_sums).getD 1 0 = _
    by_cases h1 : r = c
    · rw [if_pos h1, getD_set_add _ _ _ _ hd0, if_neg (by decide), if_neg (fun h => h.1 h1),
        add_zero]
    · rw [if_neg h1]
      by_cases h2 : r + c + 1 = N
      · rw [if_pos h2, getD_set_add _ _ _ _ hd1, if_pos rfl, if_pos ⟨h1, h2⟩]
      · rw [if_neg h2, if_neg (fun h => h2 h.2), add_zero]
  · constructor
    · exact wf.width_eq
    · exact wf.height_eq
    · show (s.game_state.set r (row.set c m)).length = N
      rw [List.length_set]; exact wf.rows
    · intro row1 hmem
      rcases List.mem_or_eq_of_mem_set hmem with h | h
      · exact wf.cols _ h
      · rw [h, List.length_set]; exact hrowlen
    · show (s.row_sums.set r _).length = N
      rw [List.length_set]; exact wf.row_sums_len
    · show (s.col_sums.set c _).length = N
      rw [List.length_set]; exact wf.col_sums_len
    · show (if r = c then s.diag_sums.set 0 (s.diag_sums.getD 0 0 + d)
          else if r + c + 1 = N then s.diag_sums.set 1 (s.diag_sums.getD 1 0 + d)
          else s.diag_sums).length = 2
      split
      · rw [List.length_set]; exact wf.diag_sums_len
      · split
        · rw [List.length_set]; exact wf.diag_sums_len
        · exact wf.diag_sums_len
  all_goals rfl

/-! ## `SetBoardState` and `ApplyMove` case by case -/

theorem legal_coords {N : Nat} {s : TicTacToe} (wf : WellFormed N s) {spot : BoardPosition}
    (h : IsSpotLegal s spot = some true) :
    ∃ r c : Nat, spot = ⟨(r : Int), (c : Int)⟩ ∧ r < N ∧ c < N ∧ cellAt s.game_state r c = kBlank := by
  obtain ⟨hg, hb⟩ := IsSpotLegal_eq_true.1 h
  obtain ⟨⟨h1, h2⟩, h3, h4⟩ := IsSpotinBoard_eq_true.1 hb
  rw [wf.width_eq] at h2
  rw [wf.height_eq] at h4
  refine ⟨spot.row.toNat, spot.col.toNat, ?_, by omega, by omega, cellAt_of_gridAt hg⟩
  cases spot with
  | mk row col =>
    simp only [BoardPosition.mk.injEq]
    constructor
    · exact (Int.toNat_of_nonneg h1).symm
    · exact (Int.toNat_of_nonneg h3).symm

theorem SetBoardState_rejected {s : TicTacToe} {spot : BoardPosition} (player : PlayerPtr)
    (h : IsSpotLegal s spot = some false) : SetBoardState s spot player = some (false, s) := by
  simp [SetBoardState, h]

theorem SetBoardState_accepted {s : TicTacToe} {spot : BoardPosition} {player : PlayerPtr}
    (h : IsSpotLegal s spot = some true) (a : Nat) (hp : player = some a) :
    SetBoardState s spot player =
      (placeMark s spot (markOf s player) (sign (markOf s player))).map fun s1 => (true, s1) := by
  subst hp
  unfold SetBoardState markOf
  simp only [h, Option.some_bind, Bool.not_true, Bool.false_eq_true, if_false]
  by_cases hp1 : some a = s.player_1
  · rw [if_pos hp1, if_pos hp1]; rfl
  · rw [if_neg hp1, if_neg hp1]; rfl

theorem SetBoardState_inv {s : TicTacToe} {spot : BoardPosition} {player : PlayerPtr}
    {b : Bool} {s1 : TicTacToe} (h : SetBoardState s spot player = some (b, s1)) :
    (b = false ∧ s1 = s ∧ IsSpotLegal s spot = some false) ∨
    (b = true ∧ IsSpotLegal s spot = some true ∧ (∃ a, player = some a) ∧
      placeMark s spot (markOf s player) (sign (markOf s player)) = some s1) := by
  cases hl : IsSpotLegal s spot with
  | none => simp [SetBoardState, hl] at h
  | some legal =>
    cases legal with
    | false =>
      rw [SetBoardState_rejected player hl] at h
      cases h
      exact Or.inl ⟨rfl, rfl, rfl⟩
    | true =>
      cases player with
      | none => unfold SetBoardState at h; simp [hl] at h
      | some a =>
        rw [SetBoardState_accepted hl a rfl] at h
        cases hpm : placeMark s spot (markOf s (some a)) (sign (markOf s (some a))) with
        | none => rw [hpm] at h; cases h
        | some s2 =>
          rw [hpm] at h
          cases h
          exact Or.inr ⟨rfl, rfl, ⟨a, rfl⟩, rfl⟩

theorem SetBoardState_legal {N : Nat} {s : TicTacToe} (wf : WellFormed N s)
    {spot : BoardPosition} {player : PlayerPtr}
    (h : IsSpotLegal s spot = some true) (a : Nat) (hp : player = some a) :
    ∃ (r c : Nat) (s1 : TicTacToe), spot = ⟨(r : Int), (c : Int)⟩ ∧ r < N ∧ c < N ∧
      cellAt s.game_state r c = kBlank ∧
      SetBoardState s spot player = some (true, s1) ∧
      Placed N s r c (markOf s player) (sign (markOf s player)) s1 := by
  obtain ⟨r, c, hs, hr, hc, hcell⟩ := legal_coords wf h
  obtain ⟨s1, hpm, hpl⟩ := placeMark_spec wf hr hc (markOf s player) (sign (markOf s player))
  refine ⟨r, c, s1, hs, hr, hc, hcell, ?_, hpl⟩
  rw [SetBoardState_accepted h a hp, hs, hpm]
  rfl

theorem ApplyMove_rejected {s : TicTacToe} {move : BoardPosition}
    (h : IsSpotLegal s move = some false) :
    ApplyMove s move = some (⟨kGameOver, some kTie⟩, s) := by
  simp [ApplyMove, SetBoardState_rejected _ h]

theorem ApplyMove_accepted {s : TicTacToe} {move : BoardPosition} {s1 : TicTacToe}
    (h : SetBoardState s move s.active_player = some (true, s1)) :
    ApplyMove s move =
      if CheckWin (incMoveCount s1) move then
        some (⟨kGameOver, some (winnerOf (incMoveCount s1) (incMoveCount s1).active_player)⟩,
          incMoveCount s1)
      else
        (intMul (swapPlayers (incMoveCount s1)).width (swapPlayers (incMoveCount s1)).height).bind
          fun area =>
            if (swapPlayers (incMoveCount s1)).move_count = toSizeT area then
              some (⟨kGameOver, some kTie⟩, swapPlayers (incMoveCount s1))
            else some (ongoing, swapPlayers (incMoveCount s1)) := by
  simp only [ApplyMove, h, Option.some_bind, if_true, winnerOf, ongoing]

/-- The three ways in which a call of `ApplyMove` returns. -/
theorem ApplyMove_inv {s : TicTacToe} {move : BoardPosition} {st : GameStatus}
    {s' : TicTacToe} (h : ApplyMove s move = some (st, s')) :
    (IsSpotLegal s move = some false ∧ st = ⟨kGameOver, some kTie⟩ ∧ s' = s) ∨
    (∃ s1, SetBoardState s move s.active_player = some (true, s1) ∧
      CheckWin (incMoveCount s1) move = true ∧
      st = ⟨kGameOver, some (winnerOf s s.active_player)⟩ ∧ s' = incMoveCount s1) ∨
    (∃ s1, SetBoardState s move s.active_player = some (true, s1) ∧
      CheckWin (incMoveCount s1) move = false ∧
      intMul s1.width s1.height = some (s1.width * s1.height) ∧
      s' = swapPlayers (incMoveCount s1) ∧
      ((s1.move_count + 1 = toSizeT (s1.width * s1.height) ∧ st = ⟨kGameOver, some kTie⟩) ∨
       (s1.move_count + 1 ≠ toSizeT (s1.width * s1.height) ∧ st = ongoing))) := by
  cases hset : SetBoardState s move s.active_player with
  | none => simp [ApplyMove, hset] at h
  | some res =>
    obtain ⟨b, s1⟩ := res
    rcases SetBoardState_inv hset with ⟨hb, hs1, hl⟩ | ⟨hb, hl, ⟨a, ha⟩, hpm⟩
    · rw [ApplyMove_rejected hl] at h
      cases h
      exact Or.inl ⟨hl, rfl, rfl⟩
    · subst hb
      rw [ApplyMove_accepted hset] at h
      have hp1 : s1.player_1 = s.player_1 ∧ s1.active_player = s.active_player := by
        unfold placeMark at hpm
        simp only [Option.bind_eq_some] at hpm
        obtain ⟨g, _, rs, _, cs, _, ds, _, hpm⟩ := hpm
        cases hpm
        exact ⟨rfl, rfl⟩
      by_cases hw : CheckWin (incMoveCount s1) move = true
      · rw [if_pos hw] at h
        cases h
        refine Or.inr (Or.inl ⟨s1, rfl, hw, ?_, rfl⟩)
        simp [winnerOf, incMoveCount, hp1.1, hp1.2]
      · rw [if_neg hw] at h
        have hw2 : CheckWin (incMoveCount s1) move = false := by
          cases hc : CheckWin (incMoveCount s1) move with
          | true => exact absurd hc hw
          | false => rfl
        refine Or.inr (Or.inr ⟨s1, rfl, hw2, ?_⟩)
        obtain ⟨area, harea, hres⟩ := Option.bind_eq_some.1 h
        have harea2 : intMul s1.width s1.height = some area := harea
        have hprod : area = s1.width * s1.height := by
          unfold intMul at harea2
          split at harea2
          · cases harea2; rfl
          · cases harea2
        subst hprod
        refine ⟨harea2, ?_⟩
        by_cases hfull : (swapPlayers (incMoveCount s1)).move_count = toSizeT (s1.width * s1.height)
        · rw [if_pos hfull] at hres
          cases hres
          exact ⟨rfl, Or.inl ⟨hfull, rfl⟩⟩
        · rw [if_neg hfull] at hres
          cases hres
          exact ⟨rfl, Or.inr ⟨hfull, rfl⟩⟩

/-! ## Line sums -/

theorem sign_le_one (m : BoardState) : sign m ≤ 1 := by cases m <;> decide

theorem neg_one_le_sign (m : BoardState) : -1 ≤ sign m := by cases m <;> decide

theorem sign_eq_one {m : BoardState} : sign m = 1 ↔ m = kX := by cases m <;> decide

theorem sign_eq_neg_one {m : BoardState} : sign m = -1 ↔ m = kO := by cases m <;> decide

/-- Adding `d` to one term of a sum over `range N`. -/
theorem sum_bump (N : Nat) (f g : Nat → Int) (Q : Prop) [Decidable Q] (k : Nat) (hk : k < N)
    (d : Int) (h : ∀ i, i < N → g i = f i + if Q ∧ i = k then d else 0) :
    ∑ i in Finset.range N, g i = (∑ i in Finset.range N, f i) + if Q then d else 0 := by
  have h1 : ∑ i in Finset.range N, g i =
      ∑ i in Finset.range N, (f i + if i = k then (if Q then d else 0) else 0) := by
    apply Finset.sum_congr rfl
    intro i hi
    rw [h i (Finset.mem_range.1 hi)]
    by_cases hq : Q <;> by_cases hik : i = k <;> simp [hq, hik]
  rw [h1, Finset.sum_add_distrib, Finset.sum_ite_eq' (Finset.range N) k]
  simp [hk]

/-- A sum of `N` terms, each at most `1`, equals `N` only when every term is `1`. -/
theorem all_one_of_sum (N : Nat) (f : Nat → Int) (hf : ∀ i, i < N → f i ≤ 1)
    (hs : ∑ i in Finset.range N, f i = N) : ∀ i, i < N → f i = 1 := by
  intro k hk
  by_contra hne
  have hlt : f k < 1 := lt_of_le_of_ne (hf k hk) hne
  have : ∑ i in Finset.range N, f i < ∑ _i in Finset.range N, (1 : Int) :=
    Finset.sum_lt_sum (fun i hi => hf i (Finset.mem_range.1 hi))
      ⟨k, Finset.mem_range.2 hk, hlt⟩
  simp at this
  omega

/-- A sum of `N` terms, each at least `-1`, equals `-N` only when every term is `-1`. -/
theorem all_neg_one_of_sum (N : Nat) (f : Nat → Int) (hf : ∀ i, i < N → -1 ≤ f i)
    (hs : ∑ i in Finset.range N, f i = -(N : Int)) : ∀ i, i < N → f i = -1 := by
  have h := all_one_of_sum N (fun i => - f i)
    (fun i hi => by have := hf i hi; show - f i ≤ 1; omega)
    (by rw [Finset.sum_neg_distrib, hs]; simp)
  intro i hi
  have := h i hi
  simp only at this
  omega

theorem sum_of_all (N : Nat) (f : Nat → Int) (e : Int) (h : ∀ i, i < N → f i = e) :
    ∑ i in Finset.range N, f i = N * e := by
  rw [Finset.sum_congr rfl (fun i hi => h i (Finset.mem_range.1 hi))]
  simp

theorem any_line_iff (l : List Int) (w : Int) :
    (l.any fun value => decide (value = w) || decide (value = -w)) = true ↔
      ∃ i, i < l.length ∧ (l.getD i 0 = w ∨ l.getD i 0 = -w) := by
  rw [List.any_eq_true]
  constructor
  · rintro ⟨x, hx, hp⟩
    obtain ⟨i, hi, hxi⟩ := List.getElem_of_mem hx
    refine ⟨i, hi, ?_⟩
    have : l.getD i 0 = x := by
      rw [List.getD_eq_getElem?_getD, List.getElem?_eq_getElem hi, hxi]; rfl
    rw [this]
    simpa using hp
  · rintro ⟨i, hi, hp⟩
    have : l.getD i 0 = l[i] := by
      rw [List.getD_eq_getElem?_getD, List.getElem?_eq_getElem hi]; rfl
    rw [this] at hp
    exact ⟨l[i], List.getElem_mem hi, by simpa using hp⟩

theorem wellFormed_fresh (N : Nat) (p1 p2 : PlayerPtr) : WellFormed N (fresh N p1 p2) := by
  constructor
  · rfl
  · rfl
  · simp [fresh]
  · intro row hrow
    simp only [fresh] at hrow
    rw [List.eq_of_mem_replicate hrow]
    simp
  · simp [fresh]
  · simp [fresh]
  · simp [fresh]

theorem cellAt_fresh (N : Nat) (p1 p2 : PlayerPtr) (r c : Nat) :
    cellAt (fresh N p1 p2).game_state r c = kBlank := by
  simp only [fresh, cellAt, List.getD_eq_getElem?_getD, List.getElem?_replicate]
  by_cases hr : r < N
  · by_cases hc : c < N <;> simp [hr, hc]
  · simp [hr]

theorem getD_replicate_zero (n i : Nat) : (List.replicate n (0 : Int)).getD i 0 = 0 := by
  simp only [List.getD_eq_getElem?_getD, List.getElem?_replicate]
  by_cases h : i < n <;> simp [h]

theorem sumsTrack_fresh (N : Nat) (p1 p2 : PlayerPtr) : SumsTrack N (fresh N p1 p2) := by
  constructor
  · intro r _
    simp only [cellAt_fresh, sign, Finset.sum_const_zero]
    exact getD_replicate_zero N r
  · intro c _
    simp only [cellAt_fresh, sign, Finset.sum_const_zero]
    exact getD_replicate_zero N c
  · simp only [cellAt_fresh, sign, Finset.sum_const_zero]
    exact getD_replicate_zero 2 0
  · simp only [cellAt_fresh, sign, ite_self, Finset.sum_const_zero]
    exact getD_replicate_zero 2 1

theorem sumsTrack_placed {N : Nat} {s s1 : TicTacToe} {r c : Nat} {m : BoardState}
    (hr : r < N) (hc : c < N) (hblank : cellAt s.game_state r c = kBlank)
    (hp : Placed N s r c m (sign m) s1) (hs : SumsTrack N s) : SumsTrack N s1 := by
  have hcell : ∀ i j, sign (cellAt s1.game_state i j) =
      sign (cellAt s.game_state i j) + if i = r ∧ j = c then sign m else 0 := by
    intro i j
    rw [hp.cell i j]
    by_cases h : i = r ∧ j = c
    · rw [if_pos h, if_pos h, h.1, h.2, hblank]; simp [sign]
    · rw [if_neg h, if_neg h, add_zero]
  constructor
  · intro i hi
    rw [hp.rsum i, hs.row i hi]
    exact (sum_bump N _ _ (i = r) c hc (sign m) (fun j _ => hcell i j)).symm
  · intro j hj
    rw [hp.csum j, hs.col j hj]
    refine (sum_bump N _ _ (j = c) r hr (sign m) (fun i _ => ?_)).symm
    rw [hcell i j]
    by_cases h1 : i = r <;> by_cases h2 : j = c <;> simp [h1, h2]
  · rw [hp.dsum, hs.diag]
    refine (sum_bump N _ _ (r = c) r hr (sign m) (fun i _ => ?_)).symm
    rw [hcell i i]
    by_cases h1 : i = r <;> by_cases h2 : r = c
    · subst h1; subst h2; simp
    · subst h1; simp [h2]
    · subst h2; simp [h1]
    · simp [h1, h2]
  · rw [hp.asum, hs.anti]
    refine (sum_bump N _ _ (r ≠ c ∧ r + c + 1 = N) r hr (sign m) (fun i hi => ?_)).symm
    rw [hcell i (N - 1 - i)]
    by_cases h0 : i = N - 1 - i
    · have hne : ¬ ((r ≠ c ∧ r + c + 1 = N) ∧ i = r) := by omega
      rw [if_pos h0, if_neg hne, add_zero, if_pos h0]
    · rw [if_neg h0, if_neg h0]
      by_cases h1 : i = r ∧ N - 1 - i = c
      · have h2 : (r ≠ c ∧ r + c + 1 = N) ∧ i = r := by omega
        rw [if_pos h1, if_pos h2]
      · have h2 : ¬ ((r ≠ c ∧ r + c + 1 = N) ∧ i = r) := by omega
        rw [if_neg h1, if_neg h2]

/-! ## Invariants of a run -/

theorem wellFormed_incMoveCount {N : Nat} {s : TicTacToe} (wf : WellFormed N s) :
    WellFormed N (incMoveCount s) :=
  ⟨wf.width_eq, wf.height_eq, wf.rows, wf.cols, wf.row_sums_len, wf.col_sums_len,
    wf.diag_sums_len⟩

theorem wellFormed_swapPlayers {N : Nat} {s : TicTacToe} (wf : WellFormed N s) :
    WellFormed N (swapPlayers s) :=
  ⟨wf.width_eq, wf.height_eq, wf.rows, wf.cols, wf.row_sums_len, wf.col_sums_len,
    wf.diag_sums_len⟩

theorem sumsTrack_incMoveCount {N : Nat} {s : TicTacToe} (h : SumsTrack N s) :
    SumsTrack N (incMoveCount s) :=
  ⟨h.row, h.col, h.diag, h.anti⟩

theorem sumsTrack_swapPlayers {N : Nat} {s : TicTacToe} (h : SumsTrack N s) :
    SumsTrack N (swapPlayers s) :=
  ⟨h.row, h.col, h.diag, h.anti⟩

/-- Every returning call of `ApplyMove` on a well-formed state is either a
rejection that leaves the state alone, or stores the mover's mark in a blank
in-board cell and then reports a win, a tie or an ongoing game. -/
theorem ApplyMove_step {N : Nat} {s : TicTacToe} (wf : WellFormed N s)
    {move : BoardPosition} {st : GameStatus} {s' : TicTacToe}
    (h : ApplyMove s move = some (st, s')) :
    (IsSpotLegal s move = some false ∧ st = ⟨kGameOver, some kTie⟩ ∧ s' = s) ∨
    (∃ (r c : Nat) (s1 : TicTacToe),
      move = ⟨(r : Int), (c : Int)⟩ ∧ r < N ∧ c < N ∧ cellAt s.game_state r c = kBlank ∧
      IsSpotLegal s move = some true ∧
      SetBoardState s move s.active_player = some (true, s1) ∧
      Placed N s r c (markOf s s.active_player) (sign (markOf s s.active_player)) s1 ∧
      ((CheckWin (incMoveCount s1) move = true ∧
          st = ⟨kGameOver, some (winnerOf s s.active_player)⟩ ∧ s' = incMoveCount s1) ∨
       (CheckWin (incMoveCount s1) move = false ∧ (N : Int) * N ≤ INT_MAX ∧
          s' = swapPlayers (incMoveCount s1) ∧
          ((s.move_count + 1 = N * N ∧ st = ⟨kGameOver, some kTie⟩) ∨
           (s.move_count + 1 ≠ N * N ∧ st = ongoing))))) := by
  have key : ∀ s1, SetBoardState s move s.active_player = some (true, s1) →
      ∃ (r c : Nat), move = ⟨(r : Int), (c : Int)⟩ ∧ r < N ∧ c < N ∧
        cellAt s.game_state r c = kBlank ∧ IsSpotLegal s move = some true ∧
        Placed N s r c (markOf s s.active_player) (sign (markOf s s.active_player)) s1 := by
    intro s1 hset
    rcases SetBoardState_inv hset with ⟨hb, _⟩ | ⟨_, hl, ⟨a, ha⟩, _⟩
    · cases hb
    · obtain ⟨r, c, s2, hm, hr, hc, hcell, hset2, hpl⟩ := SetBoardState_legal wf hl a ha
      rw [hset] at hset2
      cases hset2
      exact ⟨r, c, hm, hr, hc, hcell, hl, hpl⟩
  rcases ApplyMove_inv h with h1 | ⟨s1, hset, hw, hst, hs'⟩ | ⟨s1, hset, hw, hmul, hs', hres⟩
  · exact Or.inl h1
  · obtain ⟨r, c, hm, hr, hc, hcell, hl, hpl⟩ := key s1 hset
    exact Or.inr ⟨r, c, s1, hm, hr, hc, hcell, hl, hset, hpl, Or.inl ⟨hw, hst, hs'⟩⟩
  · obtain ⟨r, c, hm, hr, hc, hcell, hl, hpl⟩ := key s1 hset
    have hw1 : s1.width = N := hpl.wf.width_eq
    have hh1 : s1.height = N := hpl.wf.height_eq
    rw [hw1, hh1] at hmul hres
    have hbound : (N : Int) * N ≤ INT_MAX := by
      unfold intMul at hmul
      split at hmul
      · rename_i hb; exact hb.2
      · cases hmul
    have hsz : toSizeT ((N : Int) * N) = N * N := by
      unfold toSizeT
      unfold INT_MAX at hbound
      have h0 : (0 : Int) ≤ (N : Int) * N := by positivity
      rw [Int.emod_eq_of_lt h0 (by omega)]
      exact_mod_cast Int.toNat_natCast (N * N)
    rw [hsz, hpl.count] at hres
    exact Or.inr ⟨r, c, s1, hm, hr, hc, hcell, hl, hset, hpl,
      Or.inr ⟨hw, hbound, hs', hres⟩⟩

/-- A legal move by a non-null player on a well-formed state is stored by
`SetBoardState`. -/
theorem ApplyMove_legal {N : Nat} {s : TicTacToe} (wf : WellFormed N s)
    {move : BoardPosition} (hl : IsSpotLegal s move = some true) (a : Nat)
    (ha : s.active_player = some a) :
    ∃ (r c : Nat) (s1 : TicTacToe),
      move = ⟨(r : Int), (c : Int)⟩ ∧ r < N ∧ c < N ∧ cellAt s.game_state r c = kBlank ∧
      SetBoardState s move s.active_player = some (true, s1) ∧
      Placed N s r c (markOf s s.active_player) (sign (markOf s s.active_player)) s1 ∧
      (CheckWin (incMoveCount s1) move = true →
        ApplyMove s move =
          some (⟨kGameOver, some (winnerOf s s.active_player)⟩, incMoveCount s1)) ∧
      (CheckWin (incMoveCount s1) move = false → (N : Int) * N ≤ INT_MAX →
        ApplyMove s move =
          some (if s.move_count + 1 = N * N then ⟨kGameOver, some kTie⟩ else ongoing,
            swapPlayers (incMoveCount s1))) := by
  obtain ⟨r, c, s1, hm, hr, hc, hcell, hset, hpl⟩ := SetBoardState_legal wf hl a ha
  refine ⟨r, c, s1, hm, hr, hc, hcell, hset, hpl, ?_, ?_⟩
  · intro hw
    rw [ApplyMove_accepted hset, if_pos hw]
    simp [winnerOf, incMoveCount, hpl.p1, hpl.act]
  · intro hw hbound
    rw [ApplyMove_accepted hset, hw]
    have hw1 : (swapPlayers (incMoveCount s1)).width = N := hpl.wf.width_eq
    have hh1 : (swapPlayers (incMoveCount s1)).height = N := hpl.wf.height_eq
    have hc1 : (swapPlayers (incMoveCount s1)).move_count = s.move_count + 1 := by
      show s1.move_count + 1 = _
      rw [hpl.count]
    have hsz : toSizeT ((N : Int) * N) = N * N := by
      unfold toSizeT
      unfold INT_MAX at hbound
      have h0 : (0 : Int) ≤ (N : Int) * N := by positivity
      rw [Int.emod_eq_of_lt h0 (by omega)]
      exact_mod_cast Int.toNat_natCast (N * N)
    have hmul : intMul (N : Int) N = some ((N : Int) * N) := by
      unfold intMul
      rw [if_pos]
      refine ⟨?_, hbound⟩
      have h0 : (0 : Int) ≤ (N : Int) * N := by positivity
      unfold INT_MIN
      omega
    rw [hw1, hh1, hc1, hmul]
    simp only [Bool.false_eq_true, if_false, Option.some_bind, hsz]
    split <;> rfl

theorem ApplyMove_wellFormed {N : Nat} {s : TicTacToe} (wf : WellFormed N s)
    {move : BoardPosition} {st : GameStatus} {s' : TicTacToe}
    (h : ApplyMove s move = some (st, s')) : WellFormed N s' := by
  rcases ApplyMove_step wf h with ⟨_, _, hs⟩ | ⟨r, c, s1, _, _, _, _, _, _, hpl, hcase⟩
  · rw [hs]; exact wf
  · rcases hcase with ⟨_, _, hs⟩ | ⟨_, _, hs, _⟩
    · rw [hs]; exact wellFormed_incMoveCount hpl.wf
    · rw [hs]; exact wellFormed_swapPlayers (wellFormed_incMoveCount hpl.wf)

theorem ApplyMove_sumsTrack {N : Nat} {s : TicTacToe} (wf : WellFormed N s)
    (hsum : SumsTrack N s) {move : BoardPosition} {st : GameStatus} {s' : TicTacToe}
    (h : ApplyMove s move = some (st, s')) : SumsTrack N s' := by
  rcases ApplyMove_step wf h with ⟨_, _, hs⟩ | ⟨r, c, s1, _, hr, hc, hcell, _, _, hpl, hcase⟩
  · rw [hs]; exact hsum
  · have h1 : SumsTrack N s1 := sumsTrack_placed hr hc hcell hpl hsum
    rcases hcase with ⟨_, _, hs⟩ | ⟨_, _, hs, _⟩
    · rw [hs]; exact sumsTrack_incMoveCount h1
    · rw [hs]; exact sumsTrack_swapPlayers (sumsTrack_incMoveCount h1)

theorem seated_fresh (N a b : Nat) : Seated a b (fresh N (some a) (some b)) :=
  ⟨rfl, rfl, Or.inl ⟨rfl, rfl⟩⟩

theorem ApplyMove_seated {N a b : Nat} {s : TicTacToe} (wf : WellFormed N s)
    (hseat : Seated a b s) {move : BoardPosition} {st : GameStatus} {s' : TicTacToe}
    (h : ApplyMove s move = some (st, s')) : Seated a b s' := by
  rcases ApplyMove_step wf h with ⟨_, _, hs⟩ | ⟨r, c, s1, _, _, _, _, _, _, hpl, hcase⟩
  · rw [hs]; exact hseat
  · have h1 : Seated a b s1 := by
      refine ⟨hpl.p1.trans hseat.p1, hpl.p2.trans hseat.p2, ?_⟩
      rw [hpl.act, hpl.inact]
      exact hseat.turn
    rcases hcase with ⟨_, _, hs⟩ | ⟨_, _, hs, _⟩
    · rw [hs]; exact ⟨h1.p1, h1.p2, h1.turn⟩
    · rw [hs]; exact ⟨h1.p1, h1.p2, h1.turn.symm.imp (fun h => ⟨h.2, h.1⟩) (fun h => ⟨h.2, h.1⟩)⟩

theorem applyMoves_cons {s : TicTacToe} {m : BoardPosition} {ms : List BoardPosition}
    {sts : List GameStatus} {s' : TicTacToe} (h : applyMoves s (m :: ms) = some (sts, s')) :
    ∃ st s1 rest, ApplyMove s m = some (st, s1) ∧ applyMoves s1 ms = some (rest, s') ∧
      sts = st :: rest := by
  simp only [applyMoves, Option.bind_eq_some, Option.map_eq_some'] at h
  obtain ⟨⟨st, s1⟩, h1, ⟨rest, s2⟩, h2, h3⟩ := h
  cases h3
  exact ⟨st, s1, rest, h1, h2, rfl⟩

/-- A property kept by every returning `ApplyMove` call holds after any run. -/
theorem applyMoves_induct (P : TicTacToe → Prop)
    (hstep : ∀ s m st s', P s → ApplyMove s m = some (st, s') → P s') :
    ∀ (moves : List BoardPosition) (s : TicTacToe) (sts : List GameStatus) (s' : TicTacToe),
      P s → applyMoves s moves = some (sts, s') → P s' := by
  intro moves
  induction moves with
  | nil =>
    intro s sts s' hP h
    simp only [applyMoves, Option.some.injEq, Prod.mk.injEq] at h
    rw [← h.2]; exact hP
  | cons m ms ih =>
    intro s sts s' hP h
    obtain ⟨st, s1, rest, h1, h2, _⟩ := applyMoves_cons h
    exact ih s1 rest s' (hstep s m st s1 hP h1) h2

/-- A property kept by every `ApplyMove` call that returns ongoing holds after
any run whose calls all returned ongoing. -/
theorem applyMoves_induct_ongoing (P : TicTacToe → Prop)
    (hstep : ∀ s m s', P s → ApplyMove s m = some (ongoing, s') → P s') :
    ∀ (moves : List BoardPosition) (s : TicTacToe) (sts : List GameStatus) (s' : TicTacToe),
      P s → applyMoves s moves = some (sts, s') → (∀ st ∈ sts, st = ongoing) → P s' := by
  intro moves
  induction moves with
  | nil =>
    intro s sts s' hP h _
    simp only [applyMoves, Option.some.injEq, Prod.mk.injEq] at h
    rw [← h.2]; exact hP
  | cons m ms ih =>
    intro s sts s' hP h hall
    obtain ⟨st, s1, rest, h1, h2, h3⟩ := applyMoves_cons h
    subst h3
    have hst : st = ongoing := hall st (List.mem_cons_self _ _)
    subst hst
    exact ih s1 rest s' (hstep s m s1 hP h1) h2
      (fun x hx => hall x (List.mem_cons_of_mem _ hx))

/-- The invariants that hold in every state reached from a fresh game. -/
theorem reach_invariants {N a b : Nat} {moves : List BoardPosition} {sts : List GameStatus}
    {s : TicTacToe} (h : applyMoves (fresh N (some a) (some b)) moves = some (sts, s)) :
    WellFormed N s ∧ SumsTrack N s ∧ Seated a b s := by
  refine applyMoves_induct (fun s => WellFormed N s ∧ SumsTrack N s ∧ Seated a b s) ?_
    moves _ sts s ⟨wellFormed_fresh N _ _, sumsTrack_fresh N _ _, seated_fresh N a b⟩ h
  intro s m st s' hP hstep
  exact ⟨ApplyMove_wellFormed hP.1 hstep, ApplyMove_sumsTrack hP.1 hP.2.1 hstep,
    ApplyMove_seated hP.1 hP.2.2 hstep⟩

/-! ## The sum test against the grid -/

theorem sign_injective {m n : BoardState} (h : sign m = sign n) : m = n := by
  cases m <;> cases n <;> first | rfl | (exfalso; revert h; decide)

/-- When a sum of `N` terms in `[-1, 1]` has magnitude `N`, all terms agree. -/
theorem line_complete (N : Nat) (f : Nat → Int) (hf : ∀ i, i < N → -1 ≤ f i ∧ f i ≤ 1)
    (k : Nat) (hk : k < N)
    (hs : ∑ i in Finset.range N, f i = N ∨ ∑ i in Finset.range N, f i = -(N : Int)) :
    ∀ i, i < N → f i = f k := by
  intro i hi
  rcases hs with hs | hs
  · have h := all_one_of_sum N f (fun j hj => (hf j hj).2) hs
    rw [h i hi, h k hk]
  · have h := all_neg_one_of_sum N f (fun j hj => (hf j hj).1) hs
    rw [h i hi, h k hk]

theorem checkWin_iff {N : Nat} {s : TicTacToe} (wf : WellFormed N s) (p : BoardPosition) :
    CheckWin s p = true ↔
      (∃ i, i < N ∧ (s.row_sums.getD i 0 = N ∨ s.row_sums.getD i 0 = -(N : Int))) ∨
      (∃ j, j < N ∧ (s.col_sums.getD j 0 = N ∨ s.col_sums.getD j 0 = -(N : Int))) ∨
      (∃ k, k < 2 ∧ (s.diag_sums.getD k 0 = N ∨ s.diag_sums.getD k 0 = -(N : Int))) := by
  unfold CheckWin CheckRowFaster CheckColFaster CheckDiagonalFaster
  rw [Bool.or_eq_true, Bool.or_eq_true, any_line_iff, any_line_iff, any_line_iff,
    wf.width_eq, wf.height_eq, wf.row_sums_len, wf.col_sums_len, wf.diag_sums_len, or_assoc]

theorem checkWin_eq_false_iff {N : Nat} {s : TicTacToe} (wf : WellFormed N s)
    (p : BoardPosition) :
    CheckWin s p = false ↔
      (∀ i, i < N → s.row_sums.getD i 0 ≠ N ∧ s.row_sums.getD i 0 ≠ -(N : Int)) ∧
      (∀ j, j < N → s.col_sums.getD j 0 ≠ N ∧ s.col_sums.getD j 0 ≠ -(N : Int)) ∧
      (∀ k, k < 2 → s.diag_sums.getD k 0 ≠ N ∧ s.diag_sums.getD k 0 ≠ -(N : Int)) := by
  rw [← Bool.not_eq_true, checkWin_iff wf p]
  simp only [not_or, not_exists, not_and]

theorem checkWin_fresh {N : Nat} (hN : 1 ≤ N) (p1 p2 : PlayerPtr) (p : BoardPosition) :
    CheckWin (fresh N p1 p2) p = false := by
  rw [checkWin_eq_false_iff (wellFormed_fresh N p1 p2)]
  have h0 : (0 : Int) ≠ N ∧ (0 : Int) ≠ -(N : Int) := by omega
  refine ⟨fun i _ => ?_, fun j _ => ?_, fun k _ => ?_⟩
  · have e : (fresh N p1 p2).row_sums.getD i 0 = 0 := getD_replicate_zero N i
    rw [e]; exact h0
  · have e : (fresh N p1 p2).col_sums.getD j 0 = 0 := getD_replicate_zero N j
    rw [e]; exact h0
  · have e : (fresh N p1 p2).diag_sums.getD k 0 = 0 := getD_replicate_zero 2 k
    rw [e]; exact h0

/-- A run whose calls all returned ongoing ends in a state without a line sum
of magnitude `N`. -/
theorem reach_ongoing_noWin {N : Nat} (hN : 1 ≤ N) {p1 p2 : PlayerPtr}
    {moves : List BoardPosition} {sts : List GameStatus} {s : TicTacToe}
    (h : applyMoves (fresh N p1 p2) moves = some (sts, s))
    (hall : ∀ st ∈ sts, st = ongoing) (p : BoardPosition) :
    WellFormed N s ∧ CheckWin s p = false := by
  refine applyMoves_induct_ongoing (fun s => WellFormed N s ∧ CheckWin s p = false) ?_
    moves _ sts s ⟨wellFormed_fresh N _ _, checkWin_fresh hN _ _ p⟩ h hall
  intro s m s' hP hstep
  refine ⟨ApplyMove_wellFormed hP.1 hstep, ?_⟩
  rcases ApplyMove_step hP.1 hstep with ⟨_, hst, _⟩ | ⟨r, c, s1, _, _, _, _, _, _, _, hcase⟩
  · cases hst
  · rcases hcase with ⟨_, hst, _⟩ | ⟨hw, _, hs, _⟩
    · cases hst
    · rw [hs]; exact hw

/-- Soundness of the sum test: on a state without a complete line sum, a
placement after which `CheckWin` holds completes a line through the played
cell in the placed mark. -/
theorem win_line {N : Nat} {s s1 : TicTacToe} {r c : Nat} {m : BoardState}
    (wf : WellFormed N s) (hsum : SumsTrack N s) (p : BoardPosition)
    (hno : CheckWin s p = false) (hr : r < N) (hc : c < N)
    (hblank : cellAt s.game_state r c = kBlank)
    (hpl : Placed N s r c m (sign m) s1)
    (hw : CheckWin (incMoveCount s1) p = true) :
    lineThroughAll s1.game_state N r c m := by
  have hs1 : SumsTrack N s1 := sumsTrack_placed hr hc hblank hpl hsum
  have hcellrc : cellAt s1.game_state r c = m := by rw [hpl.cell r c, if_pos ⟨rfl, rfl⟩]
  have hbnd : ∀ x : BoardState, -1 ≤ sign x ∧ sign x ≤ 1 :=
    fun x => ⟨neg_one_le_sign x, sign_le_one x⟩
  obtain ⟨hnr, hnc, hnd⟩ := (checkWin_eq_false_iff wf p).1 hno
  rcases (checkWin_iff (wellFormed_incMoveCount hpl.wf) p).1 hw with
    ⟨i, hi, hv⟩ | ⟨j, hj, hv⟩ | ⟨k, hk, hv⟩
  · have hv1 : s1.row_sums.getD i 0 = N ∨ s1.row_sums.getD i 0 = -(N : Int) := hv
    by_cases hir : i = r
    · subst hir
      rw [hs1.row i hi] at hv1
      have hall := line_complete N _ (fun j _ => hbnd _) c hc hv1
      refine Or.inl (fun j hj => ?_)
      have := sign_injective (hall j hj)
      rw [this, hcellrc]
    · rw [hpl.rsum i, if_neg hir, add_zero] at hv1
      exact absurd hv1 (by have := hnr i hi; tauto)
  · have hv1 : s1.col_sums.getD j 0 = N ∨ s1.col_sums.getD j 0 = -(N : Int) := hv
    by_cases hjc : j = c
    · subst hjc
      rw [hs1.col j hj] at hv1
      have hall := line_complete N _ (fun i _ => hbnd _) r hr hv1
      refine Or.inr (Or.inl (fun i hi => ?_))
      have := sign_injective (hall i hi)
      rw [this, hcellrc]
    · rw [hpl.csum j, if_neg hjc, add_zero] at hv1
      exact absurd hv1 (by have := hnc j hj; tauto)
  · have hv1 : s1.diag_sums.getD k 0 = N ∨ s1.diag_sums.getD k 0 = -(N : Int) := hv
    have hk01 : k = 0 ∨ k = 1 := by omega
    rcases hk01 with hk0 | hk1
    · subst hk0
      by_cases hrc : r = c
      · rw [hs1.diag] at hv1
        have hall := line_complete N _ (fun i _ => hbnd _) r hr hv1
        refine Or.inr (Or.inr (Or.inl ⟨hrc, fun i hi => ?_⟩))
        have := sign_injective (hall i hi)
        rw [this]
        rw [hrc]
        rw [hrc] at hcellrc
        exact hcellrc
      · rw [hpl.dsum, if_neg hrc, add_zero] at hv1
        exact absurd hv1 (by have := hnd 0 (by decide); tauto)
    · subst hk1
      by_cases hanti : r ≠ c ∧ r + c + 1 = N
      · rw [hs1.anti] at hv1
        have hall := line_complete N
          (fun i => if i = N - 1 - i then 0 else sign (cellAt s1.game_state i (N - 1 - i)))
          (fun i _ => by
            show -1 ≤ (if i = N - 1 - i then (0 : Int) else _) ∧
              (if i = N - 1 - i then (0 : Int) else _) ≤ 1
            split
            · decide
            · exact hbnd _)
          r hr hv1
        have hrne : ¬ r = N - 1 - r := by omega
        have hcr : N - 1 - r = c := by omega
        have hm : m ≠ kBlank := by
          intro hmb
          -- a blank placement changes no sum, so the state before already had the line
          rw [← hs1.anti, hpl.asum, if_pos hanti, hmb] at hv1
          simp only [sign, add_zero] at hv1
          exact absurd hv1 (by have := hnd 1 (by decide); tauto)
        refine Or.inr (Or.inr (Or.inr ⟨hanti.2, fun i hi => ?_⟩))
        have hval : (if r = N - 1 - r then 0 else sign (cellAt s1.game_state r (N - 1 - r))) =
            sign m := by
          rw [if_neg hrne, hcr, hcellrc]
        have hi : (if i = N - 1 - i then 0 else sign (cellAt s1.game_state i (N - 1 - i))) =
            sign m := (hall i hi).trans hval
        by_cases h0 : i = N - 1 - i
        · rw [if_pos h0] at hi
          exfalso
          apply hm
          apply sign_injective
          rw [← hi]; rfl
        · rw [if_neg h0] at hi
          exact sign_injective hi
      · rw [hpl.asum, if_neg hanti, add_zero] at hv1
        exact absurd hv1 (by have := hnd 1 (by decide); tauto)

/-- Completeness of the row test: a row filled with one mark `m ≠ kBlank`
makes `CheckWin` hold. -/
theorem checkWin_of_rowAll {N : Nat} {s : TicTacToe} (wf : WellFormed N s)
    (hsum : SumsTrack N s) {r : Nat} (hr : r < N) {m : BoardState} (hm : m = kX ∨ m = kO)
    (hrow : rowAll s.game_state N r m) (p : BoardPosition) : CheckWin s p = true := by
  rw [checkWin_iff wf p]
  refine Or.inl ⟨r, hr, ?_⟩
  rw [hsum.row r hr, sum_of_all N _ (sign m) (fun j hj => by rw [hrow j hj])]
  rcases hm with h | h
  · left; rw [h]; simp [sign]
  · right; rw [h]; simp [sign]

/-! ## Frame of the grid write, runs, and the `int` area -/

theorem gridAt_of_wellFormed {N : Nat} {s : TicTacToe} (wf : WellFormed N s) {r c : Nat}
    (hr : r < N) (hc : c < N) :
    gridAt s.game_state ⟨(r : Int), (c : Int)⟩ = some (cellAt s.game_state r c) := by
  obtain ⟨row, hrow, hlen⟩ := wellFormed_getElem? wf hr
  have hc2 : c < row.length := by rw [hlen]; exact hc
  rw [gridAt_nat, hrow, Option.some_bind, List.getElem?_eq_getElem hc2]
  congr 1
  exact (cellAt_of_getElem? hrow (List.getElem?_eq_getElem hc2)).symm

theorem vecSet_eq_some {α : Type} {v : List α} {i : Int} {a : α} {w : List α}
    (h : vecSet v i a = some w) : 0 ≤ i ∧ i.toNat < v.length ∧ w = v.set i.toNat a := by
  unfold vecSet at h
  split at h
  · rename_i hc
    cases h
    exact ⟨hc.1, hc.2, rfl⟩
  · cases h

/-- The write `game_state[row][col] = m` changes the cell it names and no other. -/
theorem gridSet_spec {g g1 : List (List BoardState)} {p : BoardPosition} {m : BoardState}
    (h : gridSet g p m = some g1) :
    gridAt g1 p = some m ∧ ∀ q, q ≠ p → gridAt g1 q = gridAt g q := by
  unfold gridSet at h
  obtain ⟨row, hrow, h⟩ := Option.bind_eq_some.1 h
  obtain ⟨row1, hrow1, h⟩ := Option.bind_eq_some.1 h
  obtain ⟨hr0, hrget⟩ := vecAt_eq_some hrow
  obtain ⟨hc0, hclt, hrow1eq⟩ := vecSet_eq_some hrow1
  obtain ⟨_, hrlt, hg1⟩ := vecSet_eq_some h
  subst hrow1eq
  subst hg1
  constructor
  · unfold gridAt vecAt
    rw [if_pos hr0, List.getElem?_set, if_pos rfl, if_pos hrlt, Option.some_bind, if_pos hc0,
      List.getElem?_set, if_pos rfl, if_pos hclt]
  · intro q hq
    unfold gridAt vecAt
    by_cases hqr : 0 ≤ q.row
    · rw [if_pos hqr, if_pos hqr]
      by_cases hrow_eq : p.row.toNat = q.row.toNat
      · have hrr : q.row = p.row := by omega
        rw [List.getElem?_set, if_pos hrow_eq, if_pos hrlt, ← hrow_eq, hrget, Option.some_bind,
          Option.some_bind]
        by_cases hqc : 0 ≤ q.col
        · rw [if_pos hqc]
          have hcol_ne : p.col.toNat ≠ q.col.toNat := by
            intro hcc
            apply hq
            have : q.col = p.col := by omega
            cases q; cases p
            simp only [BoardPosition.mk.injEq]
            exact ⟨hrr, this⟩
          rw [List.getElem?_set, if_neg hcol_ne, if_pos hqc]
        · rw [if_neg hqc, if_neg hqc]
      · rw [List.getElem?_set, if_neg hrow_eq]
    · rw [if_neg hqr, if_neg hqr]

/-- What `placeMark` leaves alone, and the grid write it performs. -/
theorem placeMark_frame {s s1 : TicTacToe} {p : BoardPosition} {m : BoardState} {d : Int}
    (h : placeMark s p m d = some s1) :
    gridSet s.game_state p m = some s1.game_state ∧ s1.move_count = s.move_count ∧
      s1.width = s.width ∧ s1.height = s.height ∧ s1.player_1 = s.player_1 ∧
      s1.player_2 = s.player_2 ∧ s1.active_player = s.active_player ∧
      s1.inactive_player = s.inactive_player := by
  unfold placeMark at h
  simp only [Option.bind_eq_some] at h
  obtain ⟨g, hg, rs, _, cs, _, ds, _, h⟩ := h
  cases h
  exact ⟨hg, rfl, rfl, rfl, rfl, rfl, rfl, rfl⟩

theorem applyMoves_append (s : TicTacToe) (ms : List BoardPosition) (m : BoardPosition) :
    applyMoves s (ms ++ [m]) =
      (applyMoves s ms).bind fun r =>
        (ApplyMove r.2 m).map fun r1 => (r.1 ++ [r1.1], r1.2) := by
  induction ms generalizing s with
  | nil =>
    simp only [List.nil_append, applyMoves, Option.some_bind]
    cases ApplyMove s m with
    | none => rfl
    | some r => rfl
  | cons x xs ih =>
    simp only [List.cons_append, applyMoves]
    cases ApplyMove s x with
    | none => rfl
    | some r =>
      simp only [Option.some_bind]
      show Option.map _ (applyMoves r.2 (xs ++ [m])) = _
      rw [ih r.2]
      cases applyMoves r.2 xs with
      | none => rfl
      | some r2 =>
        simp only [Option.some_bind, Option.map_some']
        cases ApplyMove r2.2 m with
        | none => rfl
        | some r3 => rfl

/-- When `width * height` does not fit an `int`, a legal move that does not win
runs into the overflowing product. -/
theorem ApplyMove_overflow {N : Nat} {s : TicTacToe} (wf : WellFormed N s)
    {move : BoardPosition} {s1 : TicTacToe}
    (hset : SetBoardState s move s.active_player = some (true, s1))
    (hw : CheckWin (incMoveCount s1) move = false) (hbig : INT_MAX < (N : Int) * N) :
    ApplyMove s move = none := by
  cases h : ApplyMove s move with
  | none => rfl
  | some res =>
    obtain ⟨st, s'⟩ := res
    exfalso
    rcases ApplyMove_step wf h with ⟨hl, _, _⟩ | ⟨r, c, s2, _, _, _, _, _, hset2, _, hcase⟩
    · rcases SetBoardState_inv hset with ⟨hb, _⟩ | ⟨_, hl2, _, _⟩
      · cases hb
      · rw [hl] at hl2; cases hl2
    · rw [hset] at hset2
      cases hset2
      rcases hcase with ⟨hw2, _, _⟩ | ⟨_, hbound, _, _⟩
      · rw [hw] at hw2; cases hw2
      · omega

/-- The first move at `(0, 1)` on a fresh board of dimension `N ≥ 3` completes
no line, so on a board whose area exceeds `INT_MAX` it is undefined. -/
theorem first_move_overflow {N : Nat} (hN : 3 ≤ N) (hbig : INT_MAX < (N : Int) * N)
    (a b : Nat) : ApplyMove (fresh N (some a) (some b)) ⟨0, 1⟩ = none := by
  have wf := wellFormed_fresh N (some a) (some b)
  have hl : IsSpotLegal (fresh N (some a) (some b)) ⟨((0 : Nat) : Int), ((1 : Nat) : Int)⟩ =
      some true := by
    rw [IsSpotLegal_eq_true, gridAt_of_wellFormed wf (by omega) (by omega), cellAt_fresh]
    refine ⟨rfl, ?_⟩
    rw [IsSpotinBoard_eq_true]
    show ((0 : Int) ≤ ((0 : Nat) : Int) ∧ ((0 : Nat) : Int) < (N : Int)) ∧
      ((0 : Int) ≤ ((1 : Nat) : Int) ∧ ((1 : Nat) : Int) < (N : Int))
    omega
  obtain ⟨r, c, s1, hm, hr, hc, hcell, hset, hpl, _, _⟩ :=
    ApplyMove_legal wf hl a rfl
  have hr0 : r = 0 := by
    have := congrArg BoardPosition.row hm
    simp only at this
    omega
  have hc1 : c = 1 := by
    have := congrArg BoardPosition.col hm
    simp only at this
    omega
  subst hr0
  subst hc1
  refine ApplyMove_overflow wf hset ?_ hbig
  cases hw : CheckWin (incMoveCount s1) ⟨((0 : Nat) : Int), ((1 : Nat) : Int)⟩ with
  | false => rfl
  | true =>
    exfalso
    have hline := win_line wf (sumsTrack_fresh N _ _) _ (checkWin_fresh (by omega) _ _ _)
      hr hc hcell hpl hw
    have hX : markOf (fresh N (some a) (some b)) (fresh N (some a) (some b)).active_player =
        kX := by simp [markOf, fresh]
    rw [hX] at hline hpl
    have hcellOther : ∀ i j, ¬ (i = 0 ∧ j = 1) → cellAt s1.game_state i j = kBlank := by
      intro i j hij
      rw [hpl.cell i j, if_neg hij, cellAt_fresh]
    rcases hline with h | h | ⟨h, _⟩ | ⟨h, _⟩
    · have := h 0 (by omega)
      rw [hcellOther 0 0 (by omega)] at this
      cases this
    · have := h 1 (by omega)
      rw [hcellOther 1 1 (by omega)] at this
      cases this
    · omega
    · omega

/-! ## Claims C1 to C3 -/

/-- C1 (code defect).  On a 3 × 3 game the legal moves X (0,2), O (0,0), X (1,1),
O (0,1), X (2,0) all return ongoing; in the state reached the anti-diagonal
holds X in all three cells, yet `CheckWin` is false: the centre move took the
`row == col` branch of `SetBoardState`, so `diag_sums[1]` is 2, not 3. -/
theorem C1_antidiagonal_win_missed :
    ∃ s, applyMoves game3 antiRun = some (List.replicate 5 ongoing, s) ∧
      antiDiagAll s.game_state 3 kX ∧ someLineAll s.game_state 3 kX ∧
      CheckWin s ⟨2, 0⟩ = false ∧ s.diag_sums = [0, 2] := by
  refine ⟨_, rfl, ?_, ?_, ?_, ?_⟩ <;> decide

/-- C2.  In any state reached from a fresh game, when `SetBoardState` accepts
the mover's position and the grid it leaves has some row `r` filled with the
mover's mark, `ApplyMove` returns game-over with the mover as winner:
player 1 when the mover is `player_1` (mark X), player 2 otherwise (mark O). -/
theorem C2_full_row_wins (N a b : Nat) (moves : List BoardPosition) (sts : List GameStatus)
    (s : TicTacToe) (last : BoardPosition) (s1 : TicTacToe) (r : Nat)
    (hrun : applyMoves (fresh N (some a) (some b)) moves = some (sts, s))
    (hset : SetBoardState s last s.active_player = some (true, s1))
    (hr : r < N) (hfill : rowAll s1.game_state N r (markOf s s.active_player)) :
    ApplyMove s last =
        some (⟨kGameOver, some (winnerOf s s.active_player)⟩, incMoveCount s1) ∧
      (s.active_player = s.player_1 →
        markOf s s.active_player = kX ∧ winnerOf s s.active_player = kPlayer1) ∧
      (s.active_player ≠ s.player_1 →
        s.active_player = s.player_2 ∧ markOf s s.active_player = kO ∧
          winnerOf s s.active_player = kPlayer2) := by
  obtain ⟨wf, hsum, hseat⟩ := reach_invariants hrun
  rcases SetBoardState_inv hset with ⟨hb, _⟩ | ⟨_, hl, ⟨x, hx⟩, _⟩
  · cases hb
  obtain ⟨r0, c0, s2, _, hr0, hc0, hcell, hset2, hpl, hwin, _⟩ := ApplyMove_legal wf hl x hx
  rw [hset] at hset2
  cases hset2
  have hs1 : SumsTrack N s1 := sumsTrack_placed hr0 hc0 hcell hpl hsum
  have hm : markOf s s.active_player = kX ∨ markOf s s.active_player = kO := by
    unfold markOf; split
    · exact Or.inl rfl
    · exact Or.inr rfl
  have hw : CheckWin (incMoveCount s1) last = true :=
    checkWin_of_rowAll (wellFormed_incMoveCount hpl.wf) (sumsTrack_incMoveCount hs1) hr hm
      hfill last
  refine ⟨hwin hw, ?_, ?_⟩
  · intro h
    simp [markOf, winnerOf, h]
  · intro h
    refine ⟨?_, by simp [markOf, h], by simp [winnerOf, h]⟩
    rcases hseat.turn with ⟨h1, _⟩ | ⟨h1, _⟩
    · exact absurd (h1.trans hseat.p1.symm) h
    · exact h1.trans hseat.p2.symm

/-- C2 witness: the scenario (0,0), (1,1), (0,1), (2,2), (0,2) on a 3 × 3 board
ends with game-over, winner player 1. -/
theorem C2_full_row_wins_witness :
    applyMoves (fresh 3 (some 1) (some 2)) rowRun = some (List.replicate 4 ongoing, rowBefore) ∧
      SetBoardState rowBefore ⟨0, 2⟩ rowBefore.active_player = some (true, rowPlaced) ∧
      rowAll rowPlaced.game_state 3 0 (markOf rowBefore rowBefore.active_player) ∧
      ApplyMove rowBefore ⟨0, 2⟩ = some (⟨kGameOver, some kPlayer1⟩, incMoveCount rowPlaced) :=
  ⟨by decide, by decide, by decide,
    (C2_full_row_wins 3 1 2 rowRun (List.replicate 4 ongoing) rowBefore ⟨0, 2⟩ rowPlaced 0
      (by decide) (by decide) (by decide) (by decide)).1⟩

/-- C3.  In a game of two distinct players, after a run whose calls all
returned ongoing, when `ApplyMove` returns game-over with winner player 1 the
mover was `player_1` and a line through the cell just played (its row, its
column, or a diagonal it lies on) holds X in all `N` cells; with winner
player 2 the mover was `player_2` and such a line holds O. -/
theorem C3_winner_owns_line (N a b : Nat) (hab : a ≠ b) (moves : List BoardPosition)
    (sts : List GameStatus) (s : TicTacToe) (last : BoardPosition) (w : GameWinner)
    (s' : TicTacToe)
    (hrun : applyMoves (fresh N (some a) (some b)) moves = some (sts, s))
    (hong : ∀ st ∈ sts, st = ongoing)
    (hlast : ApplyMove s last = some (⟨kGameOver, some w⟩, s')) :
    (w = kPlayer1 → s.active_player = s.player_1 ∧
      ∃ r c : Nat, last = ⟨(r : Int), (c : Int)⟩ ∧ r < N ∧ c < N ∧
        cellAt s'.game_state r c = kX ∧ lineThroughAll s'.game_state N r c kX) ∧
    (w = kPlayer2 → s.active_player = s.player_2 ∧ s.active_player ≠ s.player_1 ∧
      ∃ r c : Nat, last = ⟨(r : Int), (c : Int)⟩ ∧ r < N ∧ c < N ∧
        cellAt s'.game_state r c = kO ∧ lineThroughAll s'.game_state N r c kO) := by
  obtain ⟨wf, hsum, hseat⟩ := reach_invariants hrun
  have hdist : s.player_1 ≠ s.player_2 := by
    rw [hseat.p1, hseat.p2]
    intro h
    exact hab (Option.some.inj h)
  have main : w ≠ kTie →
      ∃ r c : Nat, last = ⟨(r : Int), (c : Int)⟩ ∧ r < N ∧ c < N ∧
        w = winnerOf s s.active_player ∧
        cellAt s'.game_state r c = markOf s s.active_player ∧
        lineThroughAll s'.game_state N r c (markOf s s.active_player) := by
    intro hw
    rcases ApplyMove_step wf hlast with ⟨_, hst, _⟩ |
      ⟨r, c, s1, hm, hr, hc, hcell, _, _, hpl, hcase⟩
    · simp only [GameStatus.mk.injEq, Option.some.injEq, true_and] at hst
      exact absurd hst hw
    · rcases hcase with ⟨hwin, hst, hs'⟩ | ⟨_, _, _, hres⟩
      · have hno := (reach_ongoing_noWin (by omega : 1 ≤ N) hrun hong last).2
        have hline := win_line wf hsum last hno hr hc hcell hpl hwin
        simp only [GameStatus.mk.injEq, Option.some.injEq, true_and] at hst
        refine ⟨r, c, hm, hr, hc, hst, ?_, ?_⟩
        · rw [hs']
          show cellAt s1.game_state r c = _
          rw [hpl.cell r c, if_pos ⟨rfl, rfl⟩]
        · rw [hs']; exact hline
      · rcases hres with ⟨_, hst⟩ | ⟨_, hst⟩
        · simp only [GameStatus.mk.injEq, Option.some.injEq, true_and] at hst
          exact absurd hst hw
        · cases hst
  constructor
  · intro hw
    obtain ⟨r, c, hm, hr, hc, hwin, hcell, hline⟩ := main (by rw [hw]; decide)
    have hact : s.active_player = s.player_1 := by
      by_contra h
      rw [hw] at hwin
      simp [winnerOf, h] at hwin
    have hX : markOf s s.active_player = kX := by simp [markOf, hact]
    rw [hX] at hcell hline
    exact ⟨hact, r, c, hm, hr, hc, hcell, hline⟩
  · intro hw
    obtain ⟨r, c, hm, hr, hc, hwin, hcell, hline⟩ := main (by rw [hw]; decide)
    have hact : s.active_player ≠ s.player_1 := by
      intro h
      rw [hw] at hwin
      simp [winnerOf, h] at hwin
    have hO : markOf s s.active_player = kO := by simp [markOf, hact]
    rw [hO] at hcell hline
    have h2 : s.active_player = s.player_2 := by
      rcases hseat.turn with ⟨h1, _⟩ | ⟨h1, _⟩
      · exact absurd (h1.trans hseat.p1.symm) hact
      · exact h1.trans hseat.p2.symm
    exact ⟨h2, hact, r, c, hm, hr, hc, hcell, hline⟩

/-- C3 witness: in the row scenario the last call returns winner player 1, the
mover is `player_1`, and row 0 through the played cell (0,2) is all X. -/
theorem C3_winner_owns_line_witness :
    (1 : Nat) ≠ 2 ∧
      applyMoves (fresh 3 (some 1) (some 2)) rowRun = some (List.replicate 4 ongoing, rowBefore) ∧
      ApplyMove rowBefore ⟨0, 2⟩ = some (⟨kGameOver, some kPlayer1⟩, incMoveCount rowPlaced) ∧
      rowBefore.active_player = rowBefore.player_1 ∧
      ∃ r c : Nat, (⟨0, 2⟩ : BoardPosition) = ⟨(r : Int), (c : Int)⟩ ∧ r < 3 ∧ c < 3 ∧
        cellAt (incMoveCount rowPlaced).game_state r c = kX ∧
        lineThroughAll (incMoveCount rowPlaced).game_state 3 r c kX :=
  ⟨by decide, by decide, by decide,
    (C3_winner_owns_line 3 1 2 (by decide) rowRun (List.replicate 4 ongoing) rowBefore ⟨0, 2⟩
      kPlayer1 (incMoveCount rowPlaced) (by decide) (by decide) (by decide)).1 rfl⟩

/-! ## Claim C4 -/

theorem legal_fresh {N r c : Nat} (hr : r < N) (hc : c < N) (p1 p2 : PlayerPtr) :
    IsSpotLegal (fresh N p1 p2) ⟨(r : Int), (c : Int)⟩ = some true := by
  rw [IsSpotLegal_eq_true, gridAt_of_wellFormed (wellFormed_fresh N p1 p2) hr hc, cellAt_fresh]
  refine ⟨rfl, ?_⟩
  rw [IsSpotinBoard_eq_true]
  show ((0 : Int) ≤ (r : Int) ∧ (r : Int) < (N : Int)) ∧
    ((0 : Int) ≤ (c : Int) ∧ (c : Int) < (N : Int))
  omega

theorem legalNoLineAt_spec {s0 : TicTacToe} {moves : List BoardPosition} {k : Nat}
    (h : legalNoLineAt s0 moves k = true) {m : BoardPosition} (hm : moves[k]? = some m)
    {sts : List GameStatus} {sk : TicTacToe}
    (hrun : applyMoves s0 (moves.take k) = some (sts, sk)) :
    IsSpotLegal sk m = some true ∧
      ∀ st s', ApplyMove sk m = some (st, s') → CheckWin s' m = false := by
  unfold legalNoLineAt at h
  rw [hm, hrun] at h
  simp only [Bool.and_eq_true, beq_iff_eq] at h
  refine ⟨h.1, ?_⟩
  intro st s' hap
  have h2 := h.2
  rw [hap] at h2
  simpa using h2

/-- One more call of a run that is legal, completes no line and does not fill
the board returns ongoing (or a tie when it fills the board). -/
theorem run_step {N a b : Nat} (hbound : (N : Int) * N ≤ INT_MAX)
    {moves : List BoardPosition} {k : Nat} {m : BoardPosition} (hm : moves[k]? = some m)
    (hk : legalNoLineAt (fresh N (some a) (some b)) moves k = true) {sk : TicTacToe}
    (hrun : applyMoves (fresh N (some a) (some b)) (moves.take k) =
      some (List.replicate k ongoing, sk))
    (hcount : sk.move_count = k) :
    ∃ s', applyMoves (fresh N (some a) (some b)) (moves.take (k + 1)) =
        some (List.replicate k ongoing ++
          [if k + 1 = N * N then ⟨kGameOver, some kTie⟩ else ongoing], s') ∧
      s'.move_count = k + 1 := by
  obtain ⟨wf, _, hseat⟩ := reach_invariants hrun
  obtain ⟨hl, hno⟩ := legalNoLineAt_spec hk hm hrun
  have hact : ∃ x, sk.active_player = some x := by
    rcases hseat.turn with ⟨h, _⟩ | ⟨h, _⟩
    · exact ⟨a, h⟩
    · exact ⟨b, h⟩
  obtain ⟨x, hx⟩ := hact
  obtain ⟨r, c, s1, _, _, _, _, _, hpl, hwin, hnowin⟩ := ApplyMove_legal wf hl x hx
  have hw : CheckWin (incMoveCount s1) m = false := by
    cases hc : CheckWin (incMoveCount s1) m with
    | false => rfl
    | true => exact hno _ _ (hwin hc) ▸ hc.symm ▸ rfl
  have hap := hnowin hw hbound
  refine ⟨swapPlayers (incMoveCount s1), ?_, ?_⟩
  · rw [List.take_succ, hm]
    show applyMoves _ (List.take k moves ++ [m]) = _
    rw [applyMoves_append, hrun, Option.some_bind, hap, hcount]
    rfl
  · show s1.move_count + 1 = k + 1
    rw [hpl.count, hcount]

/-- All calls of a legal run that completes no line return ongoing as long as
the board is not full. -/
theorem run_ongoing {N a b : Nat} (hbound : (N : Int) * N ≤ INT_MAX)
    {moves : List BoardPosition}
    (hall : ∀ k, k < moves.length → legalNoLineAt (fresh N (some a) (some b)) moves k = true)
    (k : Nat) (hk : k ≤ moves.length) (hkN : k < N * N) :
    ∃ sk, applyMoves (fresh N (some a) (some b)) (moves.take k) =
        some (List.replicate k ongoing, sk) ∧ sk.move_count = k := by
  induction k with
  | zero => exact ⟨fresh N (some a) (some b), rfl, rfl⟩
  | succ k ih =>
    obtain ⟨sk, hrun, hcount⟩ := ih (by omega) (by omega)
    have hlt : k < moves.length := by omega
    have hm : moves[k]? = some moves[k] := List.getElem?_eq_getElem hlt
    obtain ⟨s', hrun', hcount'⟩ := run_step hbound hm (hall k hlt) hrun hcount
    refine ⟨s', ?_, hcount'⟩
    rw [hrun', if_neg (by omega), List.replicate_succ']

/-- C4 (counterexample).  On a fresh board of dimension 46341 the position
(0,1) is legal, but `width * height = 2147488281` exceeds `INT_MAX`, so the
first call of `ApplyMove` evaluates an overflowing `int` product and has no
defined result, instead of returning ongoing. -/
theorem C4_area_overflows_int :
    IsSpotLegal (fresh 46341 (some 1) (some 2)) ⟨0, 1⟩ = some true ∧
      intMul (fresh 46341 (some 1) (some 2)).width (fresh 46341 (some 1) (some 2)).height =
        none ∧
      ApplyMove (fresh 46341 (some 1) (some 2)) ⟨0, 1⟩ = none :=
  ⟨@legal_fresh 46341 0 1 (by decide) (by decide) _ _, by decide,
    first_move_overflow (by decide) (by decide) 1 2⟩

/-- C4 (amended).  For `N ≥ 1` with `N * N ≤ INT_MAX` and a run of `N * N`
positions on a fresh game with two player objects, each legal when it is
played and none leaving a line sum of magnitude `N`: every call but the last
returns ongoing, the last returns game-over with winner tie, and the move
count is then `N * N`. -/
theorem C4_full_board_is_tie (N a b : Nat) (moves : List BoardPosition) (hN : 1 ≤ N)
    (hbound : (N : Int) * N ≤ INT_MAX) (hlen : moves.length = N * N)
    (hall : ∀ k, k < moves.length → legalNoLineAt (fresh N (some a) (some b)) moves k = true) :
    ∃ s, applyMoves (fresh N (some a) (some b)) moves =
        some (List.replicate (N * N - 1) ongoing ++ [⟨kGameOver, some kTie⟩], s) ∧
      s.move_count = N * N := by
  have hpos : 1 ≤ N * N := Nat.mul_pos hN hN
  obtain ⟨sk, hrun, hcount⟩ := run_ongoing hbound hall (N * N - 1) (by omega) (by omega)
  have hlt : N * N - 1 < moves.length := by omega
  have hm : moves[N * N - 1]? = some moves[N * N - 1] := List.getElem?_eq_getElem hlt
  obtain ⟨s', hrun', hcount'⟩ := run_step hbound hm (hall _ hlt) hrun hcount
  have hsucc : N * N - 1 + 1 = N * N := by omega
  rw [hsucc] at hrun' hcount'
  rw [← hlen, List.take_length, hlen, if_pos rfl] at hrun'
  exact ⟨s', hrun', hcount'⟩

/-- C4 witness: the nine moves of `drawRun` on a 3 × 3 board. -/
theorem C4_full_board_is_tie_witness :
    (1 ≤ 3 ∧ ((3 : Nat) : Int) * (3 : Nat) ≤ INT_MAX ∧ drawRun.length = 3 * 3 ∧
      ∀ k, k < drawRun.length → legalNoLineAt (fresh 3 (some 1) (some 2)) drawRun k = true) ∧
    ∃ s, applyMoves (fresh 3 (some 1) (some 2)) drawRun =
        some (List.replicate (3 * 3 - 1) ongoing ++ [⟨kGameOver, some kTie⟩], s) ∧
      s.move_count = 3 * 3 :=
  ⟨⟨by decide, by decide, by decide, by decide⟩,
    C4_full_board_is_tie 3 1 2 drawRun (by decide) (by decide) (by decide) (by decide)⟩

/-! ## Claims C5 to C10 -/

/-- The grid is touched by `ApplyMove` only through the write of an accepted
move, which changes the played cell alone and needs that cell blank. -/
theorem ApplyMove_grid {s : TicTacToe} {p : BoardPosition} {st : GameStatus} {s' : TicTacToe}
    (h : ApplyMove s p = some (st, s')) :
    (IsSpotLegal s p = some false ∧ s' = s) ∨
    (IsSpotLegal s p = some true ∧ gridAt s.game_state p = some kBlank ∧
      gridAt s'.game_state p = some (markOf s s.active_player) ∧
      (∀ q, q ≠ p → gridAt s'.game_state q = gridAt s.game_state q) ∧
      s'.move_count = s.move_count + 1) := by
  have key : ∀ s1, SetBoardState s p s.active_player = some (true, s1) →
      IsSpotLegal s p = some true ∧ gridAt s.game_state p = some kBlank ∧
      gridAt s1.game_state p = some (markOf s s.active_player) ∧
      (∀ q, q ≠ p → gridAt s1.game_state q = gridAt s.game_state q) ∧
      s1.move_count = s.move_count := by
    intro s1 hset
    rcases SetBoardState_inv hset with ⟨hb, _⟩ | ⟨_, hl, _, hpm⟩
    · cases hb
    · obtain ⟨hg, hcount, _⟩ := placeMark_frame hpm
      obtain ⟨h1, h2⟩ := gridSet_spec hg
      exact ⟨hl, (IsSpotLegal_eq_true.1 hl).1, h1, h2, hcount⟩
  rcases ApplyMove_inv h with ⟨hl, _, hs⟩ | ⟨s1, hset, _, _, hs⟩ | ⟨s1, hset, _, _, hs, _⟩
  · exact Or.inl ⟨hl, hs⟩
  · obtain ⟨hl, hb, h1, h2, h3⟩ := key s1 hset
    rw [hs]
    exact Or.inr ⟨hl, hb, h1, h2, by show s1.move_count + 1 = _; rw [h3]⟩
  · obtain ⟨hl, hb, h1, h2, h3⟩ := key s1 hset
    rw [hs]
    exact Or.inr ⟨hl, hb, h1, h2, by show s1.move_count + 1 = _; rw [h3]⟩

/-- C5 (code defect).  On a 3 × 3 game the call at (0,0) returns ongoing; in
the state it leaves, (0,0) is occupied and not legal, and a second call at
(0,0) returns game-over with winner tie, not ongoing. -/
theorem C5_illegal_move_returns_tie :
    ∃ s1, ApplyMove game3 ⟨0, 0⟩ = some (ongoing, s1) ∧
      IsSpotLegal s1 ⟨0, 0⟩ = some false ∧
      ApplyMove s1 ⟨0, 0⟩ = some (⟨kGameOver, some kTie⟩, s1) := by
  refine ⟨_, rfl, ?_, ?_⟩ <;> decide

/-- C6.  For an in-board position whose cell holds X or O, `SetBoardState`
returns false and `ApplyMove` returns the state it was given: grid, move
count, row, column and diagonal sums and the active and inactive players are
all unchanged. -/
theorem C6_occupied_cell_is_noop (s : TicTacToe) (spot : BoardPosition) (m : BoardState)
    (player : PlayerPtr) (_hin : IsSpotinBoard s spot = true)
    (hocc : gridAt s.game_state spot = some m) (hm : m = kX ∨ m = kO) :
    SetBoardState s spot player = some (false, s) ∧
      ApplyMove s spot = some (⟨kGameOver, some kTie⟩, s) := by
  have hl : IsSpotLegal s spot = some false := by
    rw [IsSpotLegal_eq_false]
    refine ⟨m, hocc, fun hb => ?_⟩
    rcases hm with h | h <;> rw [h] at hb <;> cases hb
  exact ⟨SetBoardState_rejected player hl, ApplyMove_rejected hl⟩

/-- C6 witness: (0,0) holds X in `rowBefore`. -/
theorem C6_occupied_cell_is_noop_witness :
    (IsSpotinBoard rowBefore ⟨0, 0⟩ = true ∧ gridAt rowBefore.game_state ⟨0, 0⟩ = some kX) ∧
      SetBoardState rowBefore ⟨0, 0⟩ (some 1) = some (false, rowBefore) ∧
      ApplyMove rowBefore ⟨0, 0⟩ = some (⟨kGameOver, some kTie⟩, rowBefore) :=
  ⟨⟨by decide, by decide⟩,
    C6_occupied_cell_is_noop rowBefore ⟨0, 0⟩ kX (some 1) (by decide) (by decide) (Or.inl rfl)⟩

/-- C7 (code defect).  On a 3 × 3 board the positions (5,5) and (-1,0) fail
`IsSpotinBoard`, but `IsSpotLegal` evaluates `IsSpotOpen` first, which reads
`game_state` outside its bounds: the legality check has no defined result
instead of returning false. -/
theorem C7_legality_reads_out_of_bounds :
    IsSpotinBoard game3 ⟨5, 5⟩ = false ∧ IsSpotOpen game3 ⟨5, 5⟩ = none ∧
      IsSpotLegal game3 ⟨5, 5⟩ = none ∧
      IsSpotinBoard game3 ⟨-1, 0⟩ = false ∧ IsSpotLegal game3 ⟨-1, 0⟩ = none := by
  decide

/-- C8 (counterexample).  In the row scenario the fifth call returns
game-over with winner player 1; a later call at the empty cell (1,0) is
accepted: it stores X there, raises the move count from 5 to 6 and changes
row sum 1 and column sum 0. -/
theorem C8_move_accepted_after_game_over :
    applyMoves game3 (rowRun ++ [⟨0, 2⟩]) =
        some (List.replicate 4 ongoing ++ [⟨kGameOver, some kPlayer1⟩],
          incMoveCount rowPlaced) ∧
      ∃ s2, ApplyMove (incMoveCount rowPlaced) ⟨1, 0⟩ = some (⟨kGameOver, some kPlayer1⟩, s2) ∧
        gridAt (incMoveCount rowPlaced).game_state ⟨1, 0⟩ = some kBlank ∧
        gridAt s2.game_state ⟨1, 0⟩ = some kX ∧
        (incMoveCount rowPlaced).move_count = 5 ∧ s2.move_count = 6 ∧
        (incMoveCount rowPlaced).row_sums = [3, -1, -1] ∧ s2.row_sums = [3, 0, -1] ∧
        (incMoveCount rowPlaced).col_sums = [1, 0, 0] ∧ s2.col_sums = [2, 0, 0] := by
  refine ⟨by decide, _, rfl, ?_⟩
  decide

/-- C8 (amended).  After a call of `ApplyMove` has returned game-over, a later
call on a position whose cell is occupied is not accepted: it returns the
state unchanged (grid, move count and all sums) and reports game-over again;
a later call on a legal position, when it returns, has stored the mover's
mark in that cell and raised the move count by one. -/
theorem C8_after_game_over (s : TicTacToe) (p : BoardPosition) (st : GameStatus)
    (s1 : TicTacToe) (q : BoardPosition) (_hover : ApplyMove s p = some (st, s1))
    (_hst : st.state = kGameOver) :
    (∀ m, gridAt s1.game_state q = some m → m ≠ kBlank →
      ApplyMove s1 q = some (⟨kGameOver, some kTie⟩, s1)) ∧
    (IsSpotLegal s1 q = some true → ∀ st2 s2, ApplyMove s1 q = some (st2, s2) →
      s2.move_count = s1.move_count + 1 ∧
        gridAt s2.game_state q = some (markOf s1 s1.active_player) ∧
        markOf s1 s1.active_player ≠ kBlank) := by
  constructor
  · intro m hocc hm
    exact ApplyMove_rejected (IsSpotLegal_eq_false.2 ⟨m, hocc, fun hb => absurd hb hm⟩)
  · intro hl st2 s2 hap
    rcases ApplyMove_grid hap with ⟨hl2, _⟩ | ⟨_, _, h1, _, h3⟩
    · rw [hl] at hl2; cases hl2
    · refine ⟨h3, h1, ?_⟩
      unfold markOf
      split <;> decide

/-- C8 witness: after the win in the row scenario, (0,0) is occupied and a
call there changes nothing, while (1,0) is legal and a call there is stored. -/
theorem C8_after_game_over_witness :
    (ApplyMove rowBefore ⟨0, 2⟩ = some (⟨kGameOver, some kPlayer1⟩, incMoveCount rowPlaced) ∧
      gridAt (incMoveCount rowPlaced).game_state ⟨0, 0⟩ = some kX ∧
      IsSpotLegal (incMoveCount rowPlaced) ⟨1, 0⟩ = some true) ∧
    ApplyMove (incMoveCount rowPlaced) ⟨0, 0⟩ =
      some (⟨kGameOver, some kTie⟩, incMoveCount rowPlaced) :=
  ⟨⟨by decide, by decide, by decide⟩,
    (C8_after_game_over rowBefore ⟨0, 2⟩ ⟨kGameOver, some kPlayer1⟩ (incMoveCount rowPlaced)
      ⟨0, 0⟩ (by decide) rfl).1 kX (by decide) (by decide)⟩

/-- C9.  Player 1 is active and player 2 inactive in a fresh game; when
`ApplyMove` returns ongoing for a legal move, the active and inactive players
have been exchanged; when the move is rejected (`IsSpotLegal` false) the state,
and with it the assignment of active and inactive player, is unchanged. -/
theorem C9_turn_alternation (N : Nat) (p1 p2 : PlayerPtr) (s : TicTacToe)
    (move : BoardPosition) :
    ((fresh N p1 p2).active_player = (fresh N p1 p2).player_1 ∧
      (fresh N p1 p2).inactive_player = (fresh N p1 p2).player_2 ∧
      (fresh N p1 p2).player_1 = p1 ∧ (fresh N p1 p2).player_2 = p2) ∧
    (∀ s', IsSpotLegal s move = some true → ApplyMove s move = some (ongoing, s') →
      s'.active_player = s.inactive_player ∧ s'.inactive_player = s.active_player) ∧
    (IsSpotLegal s move = some false →
      ApplyMove s move = some (⟨kGameOver, some kTie⟩, s)) := by
  refine ⟨⟨rfl, rfl, rfl, rfl⟩, ?_, ?_⟩
  · intro s' _ hap
    rcases ApplyMove_inv hap with ⟨_, hst, _⟩ | ⟨s1, _, _, hst, _⟩ | ⟨s1, hset, _, _, hs, _⟩
    · cases hst
    · cases hst
    · rcases SetBoardState_inv hset with ⟨hb, _⟩ | ⟨_, _, _, hpm⟩
      · cases hb
      · obtain ⟨_, _, _, _, _, _, hact, hinact⟩ := placeMark_frame hpm
        rw [hs]
        exact ⟨hinact, hact⟩
  · intro hl
    exact ApplyMove_rejected hl

/-- C9 witness: the first move of a 3 × 3 game hands the turn to player 2, and
a second call on the same cell leaves player 2 active. -/
theorem C9_turn_alternation_witness :
    ∃ s1, ApplyMove game3 ⟨0, 0⟩ = some (ongoing, s1) ∧
      IsSpotLegal game3 ⟨0, 0⟩ = some true ∧
      (s1.active_player = game3.inactive_player ∧ s1.inactive_player = game3.active_player) ∧
      IsSpotLegal s1 ⟨0, 0⟩ = some false ∧
      ApplyMove s1 ⟨0, 0⟩ = some (⟨kGameOver, some kTie⟩, s1) :=
  ⟨_, rfl, by decide,
    (C9_turn_alternation 3 (some 1) (some 2) game3 ⟨0, 0⟩).2.1 _ (by decide) rfl,
    by decide,
    (C9_turn_alternation 3 (some 1) (some 2) _ ⟨0, 0⟩).2.2 (by decide)⟩

/-- C10.  In a state with two distinct players and for a legal position `p`:
whenever `ApplyMove` returns, the cell at `p` holds X if the active player is
`player_1` and O if it is `player_2`, and every other cell reads as before;
the call does return on a well-formed board whose area fits an `int` when the
active handle is not null; and over any run of `ApplyMove` calls a cell that
holds X or O keeps its mark. -/
theorem C10_move_sets_only_its_cell (s : TicTacToe) (p : BoardPosition)
    (hdist : s.player_1 ≠ s.player_2) (hlegal : IsSpotLegal s p = some true) :
    (∀ st s', ApplyMove s p = some (st, s') →
      (s.active_player = s.player_1 → gridAt s'.game_state p = some kX) ∧
      (s.active_player = s.player_2 → gridAt s'.game_state p = some kO) ∧
      (∀ q, q ≠ p → gridAt s'.game_state q = gridAt s.game_state q)) ∧
    (∀ N : Nat, WellFormed N s → (N : Int) * N ≤ INT_MAX → s.active_player ≠ none →
      ∃ st s', ApplyMove s p = some (st, s')) ∧
    (∀ (moves : List BoardPosition) (sts : List GameStatus) (t2 : TicTacToe)
      (q : BoardPosition) (m : BoardState),
      applyMoves s moves = some (sts, t2) → gridAt s.game_state q = some m → m ≠ kBlank →
        gridAt t2.game_state q = some m) := by
  refine ⟨?_, ?_, ?_⟩
  · intro st s' hap
    rcases ApplyMove_grid hap with ⟨hl2, _⟩ | ⟨_, _, h1, h2, _⟩
    · rw [hlegal] at hl2; cases hl2
    · refine ⟨fun h => ?_, fun h => ?_, h2⟩
      · rw [h1]; simp [markOf, h]
      · rw [h1]
        have hne : ¬ s.active_player = s.player_1 := fun e => hdist (e.symm.trans h)
        simp [markOf, hne]
  · intro N wf hbound hact
    obtain ⟨x, hx⟩ := Option.ne_none_iff_exists'.1 hact
    obtain ⟨r, c, s1, _, _, _, _, _, _, hwin, hnowin⟩ := ApplyMove_legal wf hlegal x hx
    cases hw : CheckWin (incMoveCount s1) p with
    | true => exact ⟨_, _, hwin hw⟩
    | false => exact ⟨_, _, hnowin hw hbound⟩
  · intro moves sts t2 q m hrun hq hm
    refine applyMoves_induct (fun t => gridAt t.game_state q = some m) ?_ moves s sts t2 hq hrun
    intro t mv st t' hP hap
    rcases ApplyMove_grid hap with ⟨_, ht⟩ | ⟨_, hb, _, h2, _⟩
    · rw [ht]; exact hP
    · have hne : q ≠ mv := by
        intro e
        rw [e, hb] at hP
        exact hm (Option.some.inj hP).symm
      show gridAt t'.game_state q = some m
      rw [h2 q hne]; exact hP

/-- C10 witness: in `rowBefore` player 1 moves at (0,2): the cell becomes X,
(1,1) keeps its O, and the call returns. -/
theorem C10_move_sets_only_its_cell_witness :
    (rowBefore.player_1 ≠ rowBefore.player_2 ∧ IsSpotLegal rowBefore ⟨0, 2⟩ = some true) ∧
      ApplyMove rowBefore ⟨0, 2⟩ = some (⟨kGameOver, some kPlayer1⟩, incMoveCount rowPlaced) ∧
      gridAt (incMoveCount rowPlaced).game_state ⟨0, 2⟩ = some kX ∧
      gridAt (incMoveCount rowPlaced).game_state ⟨1, 1⟩ = gridAt rowBefore.game_state ⟨1, 1⟩ :=
  ⟨⟨by decide, by decide⟩, by decide,
    ((C10_move_sets_only_its_cell rowBefore ⟨0, 2⟩ (by decide) (by decide)).1 _ _
      (by decide : ApplyMove rowBefore ⟨0, 2⟩ =
        some (⟨kGameOver, some kPlayer1⟩, incMoveCount rowPlaced))).1 rfl,
    ((C10_move_sets_only_its_cell rowBefore ⟨0, 2⟩ (by decide) (by decide)).1 _ _
      (by decide : ApplyMove rowBefore ⟨0, 2⟩ =
        some (⟨kGameOver, some kPlayer1⟩, incMoveCount rowPlaced))).2.2 ⟨1, 1⟩ (by decide)⟩

/-! ## Counting marks: lists against sums -/

theorem countP_map_range (f : Nat → BoardState) (P : BoardState → Bool) (N : Nat) :
    (((List.range N).map f).countP P : Int) =
      ∑ i in Finset.range N, if P (f i) = true then (1 : Int) else 0 := by
  induction N with
  | zero => simp
  | succ n ih =>
    rw [List.range_succ, List.map_append, List.countP_append, Finset.sum_range_succ,
      Nat.cast_add, ih]
    congr 1
    by_cases h : P (f n) = true <;> simp [h]

theorem sum_map_range (f : Nat → Nat) (N : Nat) :
    ((((List.range N).map f).sum : Nat) : Int) = ∑ i in Finset.range N, (f i : Int) := by
  induction N with
  | zero => simp
  | succ n ih =>
    rw [List.range_succ, List.map_append, List.sum_append, Finset.sum_range_succ,
      Nat.cast_add, ih]
    simp

theorem balance_map_range (f : Nat → BoardState) (N : Nat) :
    balance ((List.range N).map f) = ∑ i in Finset.range N, sign (f i) := by
  unfold balance List.count
  rw [countP_map_range, countP_map_range, ← Finset.sum_sub_distrib]
  apply Finset.sum_congr rfl
  intro i _
  cases f i <;> simp [sign]

/-- The count of cells with property `P` over the whole grid, as a double sum. -/
theorem countP_allCells (g : List (List BoardState)) (N : Nat) (P : BoardState → Bool) :
    (((allCells g N).countP P : Nat) : Int) =
      ∑ r in Finset.range N, ∑ c in Finset.range N,
        if P (cellAt g r c) = true then (1 : Int) else 0 := by
  unfold allCells
  rw [List.countP_flatten, List.map_map, sum_map_range]
  apply Finset.sum_congr rfl
  intro r _
  exact countP_map_range (fun c => cellAt g r c) P N

theorem rowCells_eq_row {N : Nat} {s : TicTacToe} (wf : WellFormed N s) {r : Nat}
    (hr : r < N) : s.game_state[r]? = some (rowCells s.game_state N r) := by
  obtain ⟨row, hrow, hlen⟩ := wellFormed_getElem? wf hr
  rw [hrow]
  congr 1
  apply List.ext_getElem
  · simp [rowCells, hlen]
  · intro c h1 h2
    have hc : c < N := by rw [hlen] at h1; exact h1
    simp only [rowCells, List.getElem_map, List.getElem_range]
    exact (cellAt_of_getElem? hrow (List.getElem?_eq_getElem h1)).symm

theorem getElem?_of_getD {l : List Int} {i : Nat} (h : i < l.length) :
    l[i]? = some (l.getD i 0) := by
  rw [List.getD_eq_getElem?_getD, List.getElem?_eq_getElem h]
  rfl

/-- Shape and sum invariants after any run from a fresh game, whatever the
player handles. -/
theorem reach_tracked {N : Nat} {p1 p2 : PlayerPtr} {moves : List BoardPosition}
    {sts : List GameStatus} {s : TicTacToe}
    (h : applyMoves (fresh N p1 p2) moves = some (sts, s)) :
    WellFormed N s ∧ SumsTrack N s := by
  refine applyMoves_induct (fun s => WellFormed N s ∧ SumsTrack N s) ?_
    moves _ sts s ⟨wellFormed_fresh N _ _, sumsTrack_fresh N _ _⟩ h
  intro s m st s' hP hstep
  exact ⟨ApplyMove_wellFormed hP.1 hstep, ApplyMove_sumsTrack hP.1 hP.2 hstep⟩

/-! ## Claims C11, C12, C16, C17 -/

/-- C11 (code defect).  On a fresh 3 × 3 game the centre (1,1) is legal and
`ApplyMove` stores X there; the move raises `diag_sums[0]` to 1 but leaves
`diag_sums[1]` at 0, although the anti-diagonal now holds one X and no O. -/
theorem C11_centre_skips_antidiagonal_sum :
    ∃ s, ApplyMove game3 ⟨1, 1⟩ = some (ongoing, s) ∧
      IsSpotLegal game3 ⟨1, 1⟩ = some true ∧
      gridAt s.game_state ⟨1, 1⟩ = some kX ∧
      game3.diag_sums = [0, 0] ∧ s.diag_sums = [1, 0] ∧
      balance (diagCells s.game_state 3) = 1 ∧
      balance (antiDiagCells s.game_state 3) = 1 := by
  refine ⟨_, rfl, ?_, ?_, ?_, ?_, ?_, ?_⟩ <;> decide

/-- C12.  In every state reached from a fresh `N × N` game by a run of
`ApplyMove` calls, accepted or rejected, each row sum is the number of X minus
the number of O in that row, and each column sum the same for its column; the
row counted is the row vector of the grid. -/
theorem C12_row_and_column_sums (N : Nat) (p1 p2 : PlayerPtr) (moves : List BoardPosition)
    (sts : List GameStatus) (s : TicTacToe)
    (hrun : applyMoves (fresh N p1 p2) moves = some (sts, s)) :
    (∀ r, r < N → s.row_sums[r]? = some (balance (rowCells s.game_state N r)) ∧
      s.game_state[r]? = some (rowCells s.game_state N r)) ∧
    (∀ c, c < N → s.col_sums[c]? = some (balance (colCells s.game_state N c))) := by
  obtain ⟨wf, hsum⟩ := reach_tracked hrun
  constructor
  · intro r hr
    refine ⟨?_, rowCells_eq_row wf hr⟩
    rw [getElem?_of_getD (by rw [wf.row_sums_len]; exact hr), hsum.row r hr]
    unfold rowCells
    rw [balance_map_range]
  · intro c hc
    rw [getElem?_of_getD (by rw [wf.col_sums_len]; exact hc), hsum.col c hc]
    unfold colCells
    rw [balance_map_range]

/-- C12 witness: the state `rowBefore`, reached by `rowRun` and one rejected
call, has row sum 2 for row 0 (two X) and column sum -1 for column 2 (one O). -/
theorem C12_row_and_column_sums_witness :
    applyMoves (fresh 3 (some 1) (some 2)) (rowRun ++ [⟨0, 0⟩]) =
        some (List.replicate 4 ongoing ++ [⟨kGameOver, some kTie⟩], rowBefore) ∧
      rowBefore.row_sums[0]? = some (balance (rowCells rowBefore.game_state 3 0)) ∧
      rowBefore.col_sums[2]? = some (balance (colCells rowBefore.game_state 3 2)) :=
  ⟨by decide,
    ((C12_row_and_column_sums 3 (some 1) (some 2) (rowRun ++ [⟨0, 0⟩])
      (List.replicate 4 ongoing ++ [⟨kGameOver, some kTie⟩]) rowBefore
      (by decide)).1 0 (by decide)).1,
    (C12_row_and_column_sums 3 (some 1) (some 2) (rowRun ++ [⟨0, 0⟩])
      (List.replicate 4 ongoing ++ [⟨kGameOver, some kTie⟩]) rowBefore
      (by decide)).2 2 (by decide)⟩

/-- C16.  For `N ≥ 1` the constructor yields a game whose grid is `N` rows of
`N` blank cells, whose row, column and diagonal sums are all zero, whose move
count is zero and differs from `N * N`, and in which player 1 is active and
player 2 inactive. -/
theorem C16_fresh_game (N : Nat) (p1 p2 : PlayerPtr) (hN : 1 ≤ N) :
    construct (N : Int) p1 p2 = some (fresh N p1 p2) ∧
    (fresh N p1 p2).game_state.length = N ∧
    (∀ row ∈ (fresh N p1 p2).game_state, row = List.replicate N kBlank) ∧
    (∀ r c, r < N → c < N →
      gridAt (fresh N p1 p2).game_state ⟨(r : Int), (c : Int)⟩ = some kBlank) ∧
    (∀ r, r < N → (fresh N p1 p2).row_sums[r]? = some 0) ∧
    (∀ c, c < N → (fresh N p1 p2).col_sums[c]? = some 0) ∧
    (fresh N p1 p2).diag_sums = [0, 0] ∧
    (fresh N p1 p2).move_count = 0 ∧
    (fresh N p1 p2).move_count ≠ N * N ∧
    (fresh N p1 p2).width = N ∧ (fresh N p1 p2).height = N ∧
    (fresh N p1 p2).player_1 = p1 ∧ (fresh N p1 p2).player_2 = p2 ∧
    (fresh N p1 p2).active_player = (fresh N p1 p2).player_1 ∧
    (fresh N p1 p2).inactive_player = (fresh N p1 p2).player_2 := by
  have hpos : 0 < N * N := Nat.mul_pos hN hN
  refine ⟨by simp [construct], by simp [fresh], ?_, ?_, ?_, ?_, rfl, rfl, ?_, rfl, rfl, rfl, rfl,
    rfl, rfl⟩
  · intro row hrow
    exact List.eq_of_mem_replicate hrow
  · intro r c hr hc
    rw [gridAt_of_wellFormed (wellFormed_fresh N p1 p2) hr hc, cellAt_fresh]
  · intro r hr
    show (List.replicate N (0 : Int))[r]? = some 0
    rw [List.getElem?_replicate, if_pos hr]
  · intro c hc
    show (List.replicate N (0 : Int))[c]? = some 0
    rw [List.getElem?_replicate, if_pos hc]
  · show (0 : Nat) ≠ N * N
    omega

/-- C16 witness: the fresh 3 × 3 game. -/
theorem C16_fresh_game_witness :
    1 ≤ 3 ∧ construct 3 (some 1) (some 2) = some game3 ∧ game3.move_count = 0 ∧
      game3.diag_sums = [0, 0] :=
  ⟨by decide, (C16_fresh_game 3 (some 1) (some 2) (by decide)).1,
    (C16_fresh_game 3 (some 1) (some 2) (by decide)).2.2.2.2.2.2.2.1,
    (C16_fresh_game 3 (some 1) (some 2) (by decide)).2.2.2.2.2.2.1⟩

/-- C17 (counterexample).  The constructor accepts dimension 0 and null player
handles: both calls yield a game object. -/
theorem C17_constructor_accepts_misuse :
    construct 0 (some 1) (some 2) = some (fresh 0 (some 1) (some 2)) ∧
      construct 3 none none = some (fresh 3 none none) ∧
      (fresh 3 none none).active_player = none := by
  decide

/-- C17 (amended).  Construction fails exactly for a negative dimension (the
`std::vector` constructor throws).  For `N ≥ 0` it yields a game whatever the
player handles; misuse shows only later: on a board of dimension 0 no position
has a defined legality, and a legal move by a null active player is
undefined. -/
theorem C17_constructor_checks_nothing (N : Int) (p1 p2 : PlayerPtr) :
    (N < 0 → construct N p1 p2 = none) ∧
    (0 ≤ N → construct N p1 p2 = some (fresh N.toNat p1 p2)) ∧
    (∀ spot, IsSpotLegal (fresh 0 p1 p2) spot = none) ∧
    (∀ (s : TicTacToe) (spot : BoardPosition), IsSpotLegal s spot = some true →
      s.active_player = none → ApplyMove s spot = none) := by
  refine ⟨?_, ?_, ?_, ?_⟩
  · intro h
    unfold construct
    rw [if_neg (by omega)]
  · intro h
    unfold construct
    rw [if_pos h]
  · intro spot
    simp [IsSpotLegal, IsSpotOpen, gridAt, vecAt, fresh]
  · intro s spot hl hnone
    simp [ApplyMove, SetBoardState, hl, hnone]

/-- C17 witness: dimension -1 fails, dimension 3 with null handles does not,
and the first move of that game is undefined. -/
theorem C17_constructor_checks_nothing_witness :
    construct (-1) (some 1) (some 2) = none ∧
      construct 3 none none = some (fresh 3 none none) ∧
      ApplyMove (fresh 3 none none) ⟨0, 0⟩ = none :=
  ⟨(C17_constructor_checks_nothing (-1) (some 1) (some 2)).1 (by decide),
    (C17_constructor_checks_nothing 3 none none).2.1 (by decide),
    (C17_constructor_checks_nothing 3 none none).2.2.2 (fresh 3 none none) ⟨0, 0⟩ (by decide)
      rfl⟩

/-! ## Counting marks through a placement -/

/-- A placement on a blank cell changes the number of cells with property `P`
by what the new mark adds and the blank took away. -/
theorem countP_placed {N : Nat} {s s1 : TicTacToe} {r c : Nat} {m : BoardState} {d : Int}
    (hr : r < N) (hc : c < N) (hblank : cellAt s.game_state r c = kBlank)
    (hp : Placed N s r c m d s1) (P : BoardState → Bool) :
    (((allCells s1.game_state N).countP P : Nat) : Int) =
      ((allCells s.game_state N).countP P : Nat) +
        ((if P m = true then (1 : Int) else 0) - (if P kBlank = true then (1 : Int) else 0)) := by
  rw [countP_allCells, countP_allCells]
  have inner : ∀ i, i < N →
      (∑ j in Finset.range N, if P (cellAt s1.game_state i j) = true then (1 : Int) else 0) =
      (∑ j in Finset.range N, if P (cellAt s.game_state i j) = true then (1 : Int) else 0) +
        if True ∧ i = r then
          ((if P m = true then (1 : Int) else 0) - (if P kBlank = true then (1 : Int) else 0))
        else 0 := by
    intro i _
    have h := sum_bump N
      (fun j => if P (cellAt s.game_state i j) = true then (1 : Int) else 0)
      (fun j => if P (cellAt s1.game_state i j) = true then (1 : Int) else 0)
      (i = r) c hc
      ((if P m = true then (1 : Int) else 0) - (if P kBlank = true then (1 : Int) else 0))
      (fun j _ => by
        show (if P (cellAt s1.game_state i j) = true then (1 : Int) else 0) = _
        rw [hp.cell i j]
        by_cases h : i = r ∧ j = c
        · rw [if_pos h, if_pos h, h.1, h.2]
          show _ = (if P (cellAt s.game_state r c) = true then (1 : Int) else 0) + _
          rw [hblank]; ring
        · rw [if_neg h, if_neg h, add_zero])
    rw [h]
    by_cases hi : i = r <;> simp [hi]
  have outer := sum_bump N
    (fun i => ∑ j in Finset.range N, if P (cellAt s.game_state i j) = true then (1 : Int) else 0)
    (fun i => ∑ j in Finset.range N, if P (cellAt s1.game_state i j) = true then (1 : Int) else 0)
    True r hr
    ((if P m = true then (1 : Int) else 0) - (if P kBlank = true then (1 : Int) else 0))
    inner
  rw [outer, if_pos trivial]

theorem length_allCells (g : List (List BoardState)) (N : Nat) : (allCells g N).length = N * N := by
  have h : (((allCells g N).length : Nat) : Int) = ((N * N : Nat) : Int) := by
    unfold allCells
    rw [List.length_flatten, List.map_map, sum_map_range]
    simp [rowCells]
  exact_mod_cast h

theorem nonEmptyCount_le (g : List (List BoardState)) (N : Nat) : nonEmptyCount g N ≤ N * N := by
  unfold nonEmptyCount
  rw [← length_allCells g N]
  exact List.countP_le_length _

theorem nonEmptyCount_fresh (N : Nat) (p1 p2 : PlayerPtr) :
    nonEmptyCount (fresh N p1 p2).game_state N = 0 := by
  have h : ((nonEmptyCount (fresh N p1 p2).game_state N : Nat) : Int) = 0 := by
    unfold nonEmptyCount
    rw [countP_allCells]
    simp [cellAt_fresh]
  exact_mod_cast h

theorem count_fresh (N : Nat) (p1 p2 : PlayerPtr) (m : BoardState) (hm : m ≠ kBlank) :
    (allCells (fresh N p1 p2).game_state N).count m = 0 := by
  have h : (((allCells (fresh N p1 p2).game_state N).count m : Nat) : Int) = 0 := by
    unfold List.count
    rw [countP_allCells]
    have : (kBlank == m) = false := by cases m <;> first | exact absurd rfl hm | rfl
    simp [cellAt_fresh, this]
  exact_mod_cast h

theorem markOf_ne_blank (s : TicTacToe) (player : PlayerPtr) : markOf s player ≠ kBlank := by
  unfold markOf
  split <;> decide

theorem nonEmptyCount_placed {N : Nat} {s s1 : TicTacToe} {r c : Nat} {m : BoardState} {d : Int}
    (hr : r < N) (hc : c < N) (hblank : cellAt s.game_state r c = kBlank)
    (hp : Placed N s r c m d s1) (hm : m ≠ kBlank) :
    nonEmptyCount s1.game_state N = nonEmptyCount s.game_state N + 1 := by
  have h := countP_placed hr hc hblank hp (fun x => decide (x ≠ kBlank))
  have e1 : decide (m ≠ kBlank) = true := decide_eq_true hm
  rw [if_pos e1, if_neg (by decide)] at h
  unfold nonEmptyCount
  have h2 : (((allCells s1.game_state N).countP (fun x => decide (x ≠ kBlank)) : Nat) : Int) =
      (((allCells s.game_state N).countP (fun x => decide (x ≠ kBlank)) + 1 : Nat) : Int) := by
    rw [h]; push_cast; ring
  exact_mod_cast h2

theorem count_placed {N : Nat} {s s1 : TicTacToe} {r c : Nat} {m : BoardState} {d : Int}
    (hr : r < N) (hc : c < N) (hblank : cellAt s.game_state r c = kBlank)
    (hp : Placed N s r c m d s1) (x : BoardState) (hx : x ≠ kBlank) :
    (allCells s1.game_state N).count x =
      (allCells s.game_state N).count x + if m = x then 1 else 0 := by
  have h := countP_placed hr hc hblank hp (fun y => y == x)
  have e0 : ¬ ((kBlank == x) = true) := by
    cases x <;> first | exact absurd rfl hx | decide
  rw [if_neg e0] at h
  have h2 : (((allCells s1.game_state N).count x : Nat) : Int) =
      (((allCells s.game_state N).count x + (if m = x then 1 else 0) : Nat) : Int) := by
    unfold List.count
    rw [h]
    by_cases hmx : m = x
    · subst hmx; simp
    · have : ¬ ((m == x) = true) := by simpa using hmx
      rw [if_neg this, if_neg hmx]; simp
  exact_mod_cast h2

/-- One returning call of `ApplyMove` keeps the move count equal to the number
of non-blank cells. -/
theorem ApplyMove_counted {N : Nat} {s : TicTacToe} (wf : WellFormed N s)
    (hcount : s.move_count = nonEmptyCount s.game_state N) {m : BoardPosition}
    {st : GameStatus} {s' : TicTacToe} (hstep : ApplyMove s m = some (st, s')) :
    s'.move_count = nonEmptyCount s'.game_state N := by
  rcases ApplyMove_step wf hstep with ⟨_, _, hs⟩ | ⟨r, c, s1, _, hr, hc, hcell, _, _, hpl, hcase⟩
  · rw [hs]; exact hcount
  · have h1 := nonEmptyCount_placed hr hc hcell hpl (markOf_ne_blank s s.active_player)
    rcases hcase with ⟨_, _, hs⟩ | ⟨_, _, hs, _⟩
    · rw [hs]
      show s1.move_count + 1 = nonEmptyCount s1.game_state N
      rw [hpl.count, h1, hcount]
    · rw [hs]
      show s1.move_count + 1 = nonEmptyCount s1.game_state N
      rw [hpl.count, h1, hcount]

/-- The move count is the number of non-blank cells after any run. -/
theorem reach_counted {N : Nat} {p1 p2 : PlayerPtr} {moves : List BoardPosition}
    {sts : List GameStatus} {s : TicTacToe}
    (h : applyMoves (fresh N p1 p2) moves = some (sts, s)) :
    WellFormed N s ∧ s.move_count = nonEmptyCount s.game_state N := by
  refine applyMoves_induct
    (fun s => WellFormed N s ∧ s.move_count = nonEmptyCount s.game_state N) ?_
    moves _ sts s ⟨wellFormed_fresh N _ _, (nonEmptyCount_fresh N p1 p2).symm⟩ h
  intro s m st s' hP hstep
  exact ⟨ApplyMove_wellFormed hP.1 hstep, ApplyMove_counted hP.1 hP.2 hstep⟩

/-! ## Claims C13 and C18 -/

/-- C13.  In every state reached from a fresh `N × N` game by a run of
`ApplyMove` calls the move count is the number of non-blank cells and is at
most `N * N`; a further call that returns either was on a legal position and
raised the count by one, or was rejected and left it unchanged. -/
theorem C13_move_count (N : Nat) (p1 p2 : PlayerPtr) (moves : List BoardPosition)
    (sts : List GameStatus) (s : TicTacToe)
    (hrun : applyMoves (fresh N p1 p2) moves = some (sts, s)) :
    s.move_count = nonEmptyCount s.game_state N ∧ s.move_count ≤ N * N ∧
    (∀ p st s', ApplyMove s p = some (st, s') →
      (IsSpotLegal s p = some true ∧ s'.move_count = s.move_count + 1) ∨
      (IsSpotLegal s p = some false ∧ s'.move_count = s.move_count)) := by
  obtain ⟨_, hcount⟩ := reach_counted hrun
  refine ⟨hcount, ?_, ?_⟩
  · rw [hcount]; exact nonEmptyCount_le _ _
  · intro p st s' hap
    rcases ApplyMove_grid hap with ⟨hl, hs⟩ | ⟨hl, _, _, _, h3⟩
    · exact Or.inr ⟨hl, by rw [hs]⟩
    · exact Or.inl ⟨hl, h3⟩

/-- C13 witness: `rowBefore`, reached by `rowRun`, has four marks and move
count 4. -/
theorem C13_move_count_witness :
    applyMoves (fresh 3 (some 1) (some 2)) rowRun = some (List.replicate 4 ongoing, rowBefore) ∧
      rowBefore.move_count = nonEmptyCount rowBefore.game_state 3 ∧
      nonEmptyCount rowBefore.game_state 3 = 4 :=
  ⟨by decide,
    (C13_move_count 3 (some 1) (some 2) rowRun (List.replicate 4 ongoing) rowBefore
      (by decide)).1,
    by decide⟩

/-- C18.  In a game of two distinct players, in a state reached by calls that
all returned ongoing, the number of X cells exceeds the number of O cells by 0
or by 1; player 1 is active exactly when the counts are equal and player 2
exactly when X leads by one. -/
theorem C18_mark_balance (N a b : Nat) (hab : a ≠ b) (moves : List BoardPosition)
    (sts : List GameStatus) (s : TicTacToe)
    (hrun : applyMoves (fresh N (some a) (some b)) moves = some (sts, s))
    (hong : ∀ st ∈ sts, st = ongoing) :
    ((allCells s.game_state N).count kX = (allCells s.game_state N).count kO ∨
      (allCells s.game_state N).count kX = (allCells s.game_state N).count kO + 1) ∧
    (s.active_player = s.player_1 ↔
      (allCells s.game_state N).count kX = (allCells s.game_state N).count kO) ∧
    (s.active_player = s.player_2 ↔
      (allCells s.game_state N).count kX = (allCells s.game_state N).count kO + 1) := by
  have hne : (some a : PlayerPtr) ≠ some b := fun h => hab (Option.some.inj h)
  have inv : WellFormed N s ∧ s.player_1 = some a ∧ s.player_2 = some b ∧
      ((s.active_player = some a ∧ s.inactive_player = some b ∧
          (allCells s.game_state N).count kX = (allCells s.game_state N).count kO) ∨
       (s.active_player = some b ∧ s.inactive_player = some a ∧
          (allCells s.game_state N).count kX = (allCells s.game_state N).count kO + 1)) := by
    refine applyMoves_induct_ongoing
      (fun s => WellFormed N s ∧ s.player_1 = some a ∧ s.player_2 = some b ∧
        ((s.active_player = some a ∧ s.inactive_player = some b ∧
            (allCells s.game_state N).count kX = (allCells s.game_state N).count kO) ∨
         (s.active_player = some b ∧ s.inactive_player = some a ∧
            (allCells s.game_state N).count kX = (allCells s.game_state N).count kO + 1)))
      ?_ moves _ sts s ?_ hrun hong
    · intro s m s' hP hstep
      obtain ⟨wf, hp1, hp2, hturn⟩ := hP
      rcases ApplyMove_step wf hstep with ⟨_, hst, _⟩ |
        ⟨r, c, s1, _, hr, hc, hcell, _, _, hpl, hcase⟩
      · cases hst
      · rcases hcase with ⟨_, hst, _⟩ | ⟨_, _, hs, _⟩
        · cases hst
        · have hX := count_placed hr hc hcell hpl kX (by decide)
          have hO := count_placed hr hc hcell hpl kO (by decide)
          rw [hs]
          refine ⟨wellFormed_swapPlayers (wellFormed_incMoveCount hpl.wf), hpl.p1.trans hp1,
            hpl.p2.trans hp2, ?_⟩
          show (s1.inactive_player = some a ∧ s1.active_player = some b ∧
              (allCells s1.game_state N).count kX = (allCells s1.game_state N).count kO) ∨
            (s1.inactive_player = some b ∧ s1.active_player = some a ∧
              (allCells s1.game_state N).count kX = (allCells s1.game_state N).count kO + 1)
          rw [hpl.act, hpl.inact, hX, hO]
          rcases hturn with ⟨hact, hinact, hcnt⟩ | ⟨hact, hinact, hcnt⟩
          · have hm : markOf s s.active_player = kX := by
              unfold markOf; rw [if_pos (hact.trans hp1.symm)]
            rw [hm]
            refine Or.inr ⟨hinact, hact, ?_⟩
            simp only [if_true]
            rw [if_neg (by decide), hcnt]
          · have hm : markOf s s.active_player = kO := by
              unfold markOf
              rw [if_neg]
              rw [hact, hp1]
              exact fun h => hne h.symm
            rw [hm]
            refine Or.inl ⟨hinact, hact, ?_⟩
            simp only [if_true]
            rw [if_neg (by decide), hcnt]
    · exact ⟨wellFormed_fresh N _ _, rfl, rfl, Or.inl ⟨rfl, rfl, by
        rw [count_fresh N _ _ kX (by decide), count_fresh N _ _ kO (by decide)]⟩⟩
  obtain ⟨_, hp1, hp2, hturn⟩ := inv
  rw [hp1, hp2]
  rcases hturn with ⟨hact, _, hcnt⟩ | ⟨hact, _, hcnt⟩
  · refine ⟨Or.inl hcnt, ⟨fun _ => hcnt, fun _ => hact⟩, ⟨fun h => ?_, fun h => ?_⟩⟩
    · rw [hact] at h; exact absurd h hne
    · omega
  · refine ⟨Or.inr hcnt, ⟨fun h => ?_, fun h => ?_⟩, ⟨fun _ => hcnt, fun _ => hact⟩⟩
    · rw [hact] at h; exact absurd h.symm hne
    · omega

/-- C18 witness: after `rowRun` there are two X and two O and player 1 is
active. -/
theorem C18_mark_balance_witness :
    (1 : Nat) ≠ 2 ∧
      applyMoves (fresh 3 (some 1) (some 2)) rowRun = some (List.replicate 4 ongoing, rowBefore) ∧
      (rowBefore.active_player = rowBefore.player_1 ↔
        (allCells rowBefore.game_state 3).count kX = (allCells rowBefore.game_state 3).count kO) :=
  ⟨by decide, by decide,
    (C18_mark_balance 3 1 2 (by decide) rowRun (List.replicate 4 ongoing) rowBefore (by decide)
      (by decide)).2.1⟩

/-! ## `GetPossibleMoves` -/

theorem collect_map_some {α : Type} (l : List α) (f : α → List BoardPosition) :
    collect (l.map fun i => some (f i)) = some ((l.map f).flatten) := by
  induction l with
  | nil => rfl
  | cons x xs ih =>
    simp only [List.map_cons, collect, Option.some_bind, List.flatten_cons]
    rw [ih]
    rfl

theorem gridAt_of_rect {board : List (List BoardState)} {C : Nat}
    (hrect : ∀ row ∈ board, row.length = C) {r c : Nat} (hr : r < board.length) (hc : c < C) :
    gridAt board ⟨(r : Int), (c : Int)⟩ = some (cellAt board r c) := by
  have hrow : board[r]? = some board[r] := List.getElem?_eq_getElem hr
  have hlen : board[r].length = C := hrect _ (List.getElem_mem hr)
  have hc2 : c < board[r].length := by rw [hlen]; exact hc
  rw [gridAt_nat, hrow, Option.some_bind, List.getElem?_eq_getElem hc2]
  congr 1
  exact (cellAt_of_getElem? hrow (List.getElem?_eq_getElem hc2)).symm

theorem intInc_of_lt {i : Nat} {n : Nat} (hi : i < n) (hn : (n : Int) ≤ INT_MAX) :
    intInc (i : Int) = some ((i : Int) + 1) := by
  unfold intInc
  rw [if_pos]
  have : (i : Int) < (n : Int) := by omega
  omega

theorem collect_eq_none {l : List (Option (List BoardPosition))} (h : none ∈ l) :
    collect l = none := by
  induction l with
  | nil => cases h
  | cons x xs ih =>
    rcases List.mem_cons.1 h with hx | hx
    · rw [← hx]; rfl
    · unfold collect
      rw [ih hx]
      cases x <;> rfl

/-- On a rectangular board whose dimensions fit an `int`, `GetPossibleMoves`
is defined and yields the row-major enumeration of the blank cells. -/
theorem GetPossibleMoves_rect {board : List (List BoardState)} {C : Nat}
    (hrect : ∀ row ∈ board, row.length = C) (hR : (board.length : Int) ≤ INT_MAX)
    (hC : (C : Int) ≤ INT_MAX) :
    GetPossibleMoves board = some (blankPositions board board.length C) := by
  unfold GetPossibleMoves blankPositions
  have hinner : ∀ r ∈ List.range board.length,
      scanRow board r = some (blankInRow board C r) := by
    intro r hr
    have hr2 : r < board.length := List.mem_range.1 hr
    have h0 : (board.getD 0 []).length = C := by
      have hpos : 0 < board.length := by omega
      rw [List.getD_eq_getElem?_getD, List.getElem?_eq_getElem hpos]
      exact hrect _ (List.getElem_mem hpos)
    have hcols : collect ((List.range C).map fun col => scanCell board r col) =
        some (blankInRow board C r) := by
      unfold blankInRow
      rw [← collect_map_some]
      congr 1
      apply List.map_congr_left
      intro c hc
      unfold scanCell
      rw [gridAt_of_rect hrect hr2 (List.mem_range.1 hc), Option.some_bind,
        intInc_of_lt (List.mem_range.1 hc) hC]
      rfl
    unfold scanRow
    rw [h0, hcols, Option.some_bind, intInc_of_lt hr2 hR]
    rfl
  rw [List.map_congr_left hinner]
  exact collect_map_some _ _

/-- On a board with at least one row and more than `INT_MAX` columns, all of
whose rows have that length, the column counter overflows. -/
theorem GetPossibleMoves_overflow {board : List (List BoardState)} {C : Nat}
    (hrect : ∀ row ∈ board, row.length = C) (hrows : 0 < board.length)
    (hC : INT_MAX < (C : Int)) : GetPossibleMoves board = none := by
  unfold GetPossibleMoves
  apply collect_eq_none
  rw [List.mem_map]
  refine ⟨0, List.mem_range.2 hrows, ?_⟩
  have h0 : (board.getD 0 []).length = C := by
    rw [List.getD_eq_getElem?_getD, List.getElem?_eq_getElem hrows]
    exact hrect _ (List.getElem_mem hrows)
  unfold scanRow
  rw [h0]
  have hcols : collect ((List.range C).map fun col => scanCell board 0 col) = none := by
    apply collect_eq_none
    rw [List.mem_map]
    have hlt : INT_MAX.toNat < C := by
      unfold INT_MAX at hC ⊢
      omega
    refine ⟨INT_MAX.toNat, List.mem_range.2 hlt, ?_⟩
    unfold scanCell
    rw [gridAt_of_rect hrect hrows hlt, Option.some_bind]
    rfl
  rw [hcols]
  rfl

theorem mem_blankInRow {board : List (List BoardState)} {C r : Nat} {p : BoardPosition} :
    p ∈ blankInRow board C r ↔
      ∃ c, c < C ∧ cellAt board r c = kBlank ∧ p = ⟨(r : Int), (c : Int)⟩ := by
  unfold blankInRow
  simp only [List.mem_flatten, List.mem_map, List.mem_range]
  constructor
  · rintro ⟨l, ⟨c, hc, rfl⟩, hp⟩
    by_cases hb : cellAt board r c = kBlank
    · rw [if_pos hb, List.mem_singleton] at hp
      exact ⟨c, hc, hb, hp⟩
    · rw [if_neg hb] at hp
      cases hp
  · rintro ⟨c, hc, hb, rfl⟩
    exact ⟨_, ⟨c, hc, rfl⟩, by rw [if_pos hb]; exact List.mem_singleton.2 rfl⟩

theorem mem_blankPositions {board : List (List BoardState)} {R C : Nat} {p : BoardPosition} :
    p ∈ blankPositions board R C ↔
      ∃ r c, r < R ∧ c < C ∧ cellAt board r c = kBlank ∧ p = ⟨(r : Int), (c : Int)⟩ := by
  unfold blankPositions
  simp only [List.mem_flatten, List.mem_map, List.mem_range]
  constructor
  · rintro ⟨l, ⟨r, hr, rfl⟩, hp⟩
    obtain ⟨c, hc, hb, hpe⟩ := mem_blankInRow.1 hp
    exact ⟨r, c, hr, hc, hb, hpe⟩
  · rintro ⟨r, c, hr, hc, hb, hpe⟩
    exact ⟨_, ⟨r, hr, rfl⟩, mem_blankInRow.2 ⟨c, hc, hb, hpe⟩⟩

theorem pairwise_blankInRow (board : List (List BoardState)) (C r : Nat) :
    (blankInRow board C r).Pairwise rowMajorLt := by
  unfold blankInRow
  rw [List.pairwise_flatten]
  constructor
  · intro l hl
    obtain ⟨c, _, rfl⟩ := List.mem_map.1 hl
    split
    · exact List.pairwise_singleton _ _
    · exact List.Pairwise.nil
  · rw [List.pairwise_map]
    refine (List.pairwise_lt_range C).imp ?_
    intro c1 c2 hlt x hx y hy
    have hx2 : x = ⟨(r : Int), (c1 : Int)⟩ := by
      split at hx
      · exact List.mem_singleton.1 hx
      · cases hx
    have hy2 : y = ⟨(r : Int), (c2 : Int)⟩ := by
      split at hy
      · exact List.mem_singleton.1 hy
      · cases hy
    rw [hx2, hy2]
    right
    exact ⟨rfl, by show (c1 : Int) < (c2 : Int); omega⟩

theorem pairwise_blankPositions (board : List (List BoardState)) (R C : Nat) :
    (blankPositions board R C).Pairwise rowMajorLt := by
  unfold blankPositions
  rw [List.pairwise_flatten]
  constructor
  · intro l hl
    obtain ⟨r, _, rfl⟩ := List.mem_map.1 hl
    exact pairwise_blankInRow board C r
  · rw [List.pairwise_map]
    refine (List.pairwise_lt_range R).imp ?_
    intro r1 r2 hlt x hx y hy
    obtain ⟨c1, _, _, rfl⟩ := mem_blankInRow.1 hx
    obtain ⟨c2, _, _, rfl⟩ := mem_blankInRow.1 hy
    left
    show (r1 : Int) < (r2 : Int)
    omega

theorem rowMajorLt_ne {p q : BoardPosition} (h : rowMajorLt p q) : p ≠ q := by
  intro e
  subst e
  rcases h with h | ⟨_, h⟩ <;> exact lt_irrefl _ h

/-- Membership in the enumeration is the same as reading a blank cell. -/
theorem mem_blankPositions_iff_gridAt {board : List (List BoardState)} {C : Nat}
    (hrect : ∀ row ∈ board, row.length = C) (p : BoardPosition) :
    p ∈ blankPositions board board.length C ↔ gridAt board p = some kBlank := by
  rw [mem_blankPositions]
  constructor
  · rintro ⟨r, c, hr, hc, hb, rfl⟩
    rw [gridAt_of_rect hrect hr hc, hb]
  · intro hg
    obtain ⟨h0r, h0c, row, hrow, hcell⟩ := gridAt_eq_some hg
    obtain ⟨hr, hrow2⟩ := List.getElem?_eq_some.1 hrow
    obtain ⟨hc, _⟩ := List.getElem?_eq_some.1 hcell
    have hlen : row.length = C := by
      rw [← hrow2]; exact hrect _ (List.getElem_mem hr)
    refine ⟨p.row.toNat, p.col.toNat, hr, by rw [← hlen]; exact hc, cellAt_of_gridAt hg, ?_⟩
    cases p with
    | mk row0 col0 =>
      simp only [BoardPosition.mk.injEq]
      exact ⟨(Int.toNat_of_nonneg h0r).symm, (Int.toNat_of_nonneg h0c).symm⟩

/-- On the board of a well-formed game every enumerated position is legal. -/
theorem legal_of_mem_blankPositions {N : Nat} {s : TicTacToe} (wf : WellFormed N s)
    {p : BoardPosition} (hp : p ∈ blankPositions s.game_state s.game_state.length N) :
    IsSpotLegal s p = some true := by
  rw [IsSpotLegal_eq_true]
  refine ⟨(mem_blankPositions_iff_gridAt wf.cols p).1 hp, ?_⟩
  obtain ⟨r, c, hr, hc, _, rfl⟩ := mem_blankPositions.1 hp
  rw [wf.rows] at hr
  rw [IsSpotinBoard_eq_true, wf.width_eq, wf.height_eq]
  show ((0 : Int) ≤ (r : Int) ∧ (r : Int) < (N : Int)) ∧
    ((0 : Int) ≤ (c : Int) ∧ (c : Int) < (N : Int))
  omega

theorem cellAt_blank_row (n c : Nat) : cellAt [List.replicate n kBlank] 0 c = kBlank := by
  simp only [cellAt, List.getD_eq_getElem?_getD, List.getElem?_cons_zero, Option.getD_some,
    List.getElem?_replicate]
  split <;> rfl

/-- C14 (counterexample).  The board of one row of 2147483648 blank cells is
rectangular and its cell (0, 2147483647) reads blank, but after the iteration
for that cell `col++` overflows the `int` counter: `GetPossibleMoves` has no
defined result instead of a list of the blank positions. -/
theorem C14_column_counter_overflows :
    ([List.replicate 2147483648 kBlank] : List (List BoardState)).length = 1 ∧
      (List.replicate 2147483648 kBlank).length = 2147483648 ∧
      gridAt [List.replicate 2147483648 kBlank] ⟨0, 2147483647⟩ = some kBlank ∧
      intInc 2147483647 = none ∧
      GetPossibleMoves [List.replicate 2147483648 kBlank] = none := by
  have hrect : ∀ row ∈ ([List.replicate 2147483648 kBlank] : List (List BoardState)),
      row.length = 2147483648 := by
    intro row hrow
    rw [List.mem_singleton.1 hrow, List.length_replicate]
  refine ⟨rfl, List.length_replicate _ _, ?_, by decide, ?_⟩
  · have h := @gridAt_of_rect _ 2147483648 hrect 0 2147483647 (by decide) (by decide)
    rw [cellAt_blank_row] at h
    exact h
  · exact GetPossibleMoves_overflow hrect (by decide) (by decide)

/-- C14 (amended).  On a rectangular board (all rows of one length `C`) with
at most `INT_MAX` rows and at most `INT_MAX` columns, `GetPossibleMoves`
returns a list that contains exactly the positions whose cell reads `kBlank`,
in strictly increasing row-major order and hence without repetition; every
returned position is within the board; the list is empty exactly when no cell
is blank; and on the board of a well-formed game every returned position is
legal.  The board is an argument that the function only reads. -/
theorem C14_possible_moves (board : List (List BoardState)) (C : Nat)
    (hrect : ∀ row ∈ board, row.length = C) (hR : (board.length : Int) ≤ INT_MAX)
    (hC : (C : Int) ≤ INT_MAX) :
    ∃ moves_list, GetPossibleMoves board = some moves_list ∧
      (∀ p, p ∈ moves_list ↔ gridAt board p = some kBlank) ∧
      moves_list.Pairwise rowMajorLt ∧ moves_list.Nodup ∧
      (∀ p ∈ moves_list, (0 ≤ p.row ∧ p.row < (board.length : Int)) ∧
        (0 ≤ p.col ∧ p.col < (C : Int))) ∧
      (moves_list = [] ↔ ∀ p, gridAt board p ≠ some kBlank) ∧
      (∀ (N : Nat) (s : TicTacToe), WellFormed N s → s.game_state = board →
        ∀ p ∈ moves_list, IsSpotLegal s p = some true) := by
  refine ⟨_, GetPossibleMoves_rect hrect hR hC, mem_blankPositions_iff_gridAt hrect,
    pairwise_blankPositions _ _ _, ?_, ?_, ?_, ?_⟩
  · exact (pairwise_blankPositions _ _ _).imp rowMajorLt_ne
  · intro p hp
    obtain ⟨r, c, hr, hc, _, rfl⟩ := mem_blankPositions.1 hp
    show ((0 : Int) ≤ (r : Int) ∧ (r : Int) < _) ∧ ((0 : Int) ≤ (c : Int) ∧ (c : Int) < _)
    omega
  · rw [List.eq_nil_iff_forall_not_mem]
    constructor
    · intro h p hg
      exact h p ((mem_blankPositions_iff_gridAt hrect p).2 hg)
    · intro h p hp
      exact h p ((mem_blankPositions_iff_gridAt hrect p).1 hp)
  · intro N s wf hs p hp
    subst hs
    have hC : s.game_state.length = 0 ∨ C = N := by
      by_cases h0 : s.game_state.length = 0
      · exact Or.inl h0
      · right
        have hpos : 0 < s.game_state.length := by omega
        rw [← hrect _ (List.getElem_mem hpos), wf.cols _ (List.getElem_mem hpos)]
    rcases hC with h0 | hC
    · obtain ⟨r, c, hr, _⟩ := mem_blankPositions.1 hp
      omega
    · subst hC
      exact legal_of_mem_blankPositions wf hp

/-- C14 witness: the open positions of `rowBefore` in row-major order. -/
theorem C14_possible_moves_witness :
    ((∀ row ∈ rowBefore.game_state, row.length = 3) ∧
        (rowBefore.game_state.length : Int) ≤ INT_MAX ∧ ((3 : Nat) : Int) ≤ INT_MAX) ∧
      GetPossibleMoves rowBefore.game_state =
        some [⟨0, 2⟩, ⟨1, 0⟩, ⟨1, 2⟩, ⟨2, 0⟩, ⟨2, 1⟩] ∧
      ∃ moves_list, GetPossibleMoves rowBefore.game_state = some moves_list ∧
        moves_list.Pairwise rowMajorLt :=
  ⟨⟨by decide, by decide, by decide⟩, by decide,
    (C14_possible_moves rowBefore.game_state 3 (by decide) (by decide) (by decide)).imp
      fun _ h => ⟨h.1, h.2.2.1⟩⟩

/-! ## The play loop -/

theorem playLoop_done (heap : Nat → MoveSource) (fuel n : Nat) (s : TicTacToe)
    (game_result : GameStatus) (h : game_result.state = kGameOver) :
    playLoop heap fuel n s game_result = some (game_result, s, []) := by
  have hne : ¬ game_result.state = kGameOngoing := by rw [h]; decide
  cases fuel with
  | zero => simp only [playLoop, if_neg hne]
  | succ f => simp only [playLoop, if_neg hne]

/-- One iteration of the loop on an ongoing game whose active player offers the
legal candidate `mv`. -/
theorem playLoop_apply (heap : Nat → MoveSource) (fuel n : Nat) (s : TicTacToe) (a : Nat)
    (mv : BoardPosition) (hact : s.active_player = some a)
    (hmove : heap a n s.game_state = some (some mv)) (hl : IsSpotLegal s mv = some true) :
    playLoop heap (fuel + 1) n s ongoing =
      (ApplyMove s mv).bind fun res =>
        (playLoop heap fuel (n + 1) res.2 res.1).map fun r =>
          (r.1, r.2.1, LoopEvent.applied mv res.1 :: r.2.2) := by
  simp only [playLoop, ongoing, GetBoardState, hact, hmove, hl, Option.some_bind, if_true,
    Bool.not_true, Bool.false_eq_true, if_false]

theorem randomPlayer_picks (dis : Nat → Nat) : PicksPossible (RandomPlayer.Move dis) := by
  intro n board moves_list hg
  unfold RandomPlayer.Move
  rw [hg, Option.some_bind]
  constructor
  · intro h; rw [h]; rfl
  · intro h
    have hpos : 0 < moves_list.length := List.length_pos.2 h
    have hidx : dis n % moves_list.length < moves_list.length := Nat.mod_lt _ hpos
    have hemp : moves_list.isEmpty = false := by
      cases moves_list with
      | nil => exact absurd rfl h
      | cons x xs => rfl
    refine ⟨moves_list[dis n % moves_list.length], List.getElem_mem hidx, ?_⟩
    rw [hemp, List.getElem?_eq_getElem hidx]
    rfl

theorem mem_allCells {g : List (List BoardState)} {N : Nat} {x : BoardState}
    (h : x ∈ allCells g N) : ∃ r c, r < N ∧ c < N ∧ x = cellAt g r c := by
  unfold allCells rowCells at h
  simp only [List.mem_flatten, List.mem_map, List.mem_range] at h
  obtain ⟨l, ⟨r, hr, rfl⟩, hx⟩ := h
  simp only [List.mem_map, List.mem_range] at hx
  obtain ⟨c, hc, rfl⟩ := hx
  exact ⟨r, c, hr, hc, rfl⟩

/-- A grid with fewer than `N * N` non-blank cells has a blank cell. -/
theorem exists_blank {g : List (List BoardState)} {N : Nat} (h : nonEmptyCount g N < N * N) :
    ∃ r c, r < N ∧ c < N ∧ cellAt g r c = kBlank := by
  by_contra hno
  have hall : ∀ x ∈ allCells g N, (fun m => decide (m ≠ kBlank)) x = true := by
    intro x hx
    obtain ⟨r, c, hr, hc, rfl⟩ := mem_allCells hx
    exact decide_eq_true (fun hb => hno ⟨r, c, hr, hc, hb⟩)
  have := List.countP_eq_length.2 hall
  unfold nonEmptyCount at h
  rw [this, length_allCells] at h
  exact lt_irrefl _ h

/-- A well-behaved move source shown the board of an unfinished well-formed
game answers with a legal position. -/
theorem picks_legal {N : Nat} {s : TicTacToe} (wf : WellFormed N s) (hint : (N : Int) ≤ INT_MAX)
    (hcount : s.move_count = nonEmptyCount s.game_state N) (hlt : s.move_count < N * N)
    {src : MoveSource} (hsrc : PicksPossible src) (n : Nat) :
    ∃ mv, src n s.game_state = some (some mv) ∧ IsSpotLegal s mv = some true := by
  have hg := GetPossibleMoves_rect wf.cols (by rw [wf.rows]; exact hint) hint
  rw [wf.rows] at hg
  obtain ⟨r, c, hr, hc, hb⟩ := exists_blank (by rw [← hcount]; exact hlt)
  have hmem : (⟨(r : Int), (c : Int)⟩ : BoardPosition) ∈ blankPositions s.game_state N N :=
    mem_blankPositions.2 ⟨r, c, hr, hc, hb, rfl⟩
  obtain ⟨mv, hmv, hsrc2⟩ := (hsrc n s.game_state _ hg).2 (List.ne_nil_of_mem hmem)
  refine ⟨mv, hsrc2, ?_⟩
  apply legal_of_mem_blankPositions wf
  rw [wf.rows]
  exact hmv

/-- From an unfinished state with `k` blank cells the loop ends within `k`
iterations, each of which calls `ApplyMove`, the last one returning game-over
with a winner value. -/
theorem playLoop_terminates {N a b : Nat} (hbound : (N : Int) * N ≤ INT_MAX)
    (heap : Nat → MoveSource) (ha : PicksPossible (heap a)) (hb : PicksPossible (heap b)) :
    ∀ (k : Nat) (s : TicTacToe) (n fuel : Nat), WellFormed N s → Seated a b s →
      s.move_count = nonEmptyCount s.game_state N → s.move_count + k = N * N → 1 ≤ k →
      k ≤ fuel →
      ∃ st s' log, playLoop heap fuel n s ongoing = some (st, s', log) ∧
        log.length ≤ k ∧ (∀ e ∈ log, ∃ mv st', e = LoopEvent.applied mv st') ∧
        st.state = kGameOver ∧
        (st.winner = some kPlayer1 ∨ st.winner = some kPlayer2 ∨ st.winner = some kTie) ∧
        (∃ mv, log.getLast? = some (LoopEvent.applied mv st)) := by
  intro k
  induction k with
  | zero => intro s n fuel _ _ _ _ h1; omega
  | succ k ih =>
    intro s n fuel wf hseat hcount hk _ hfuel
    obtain ⟨f, rfl⟩ : ∃ f, fuel = f + 1 := ⟨fuel - 1, by omega⟩
    have hactive : ∃ x, s.active_player = some x ∧ PicksPossible (heap x) := by
      rcases hseat.turn with ⟨h, _⟩ | ⟨h, _⟩
      · exact ⟨a, h, ha⟩
      · exact ⟨b, h, hb⟩
    obtain ⟨x, hx, hsrc⟩ := hactive
    have hint : (N : Int) ≤ INT_MAX := by
      have h1 : N ≤ N * N := Nat.le_mul_self N
      have h2 : (N : Int) ≤ (N : Int) * N := by exact_mod_cast h1
      omega
    obtain ⟨mv, hmove, hl⟩ := picks_legal wf hint hcount (by omega) hsrc n
    rw [playLoop_apply heap f n s x mv hx hmove hl]
    obtain ⟨r, c, s1, _, _, _, _, _, hpl, hwin, hnowin⟩ := ApplyMove_legal wf hl x hx
    have hwinner : winnerOf s s.active_player = kPlayer1 ∨
        winnerOf s s.active_player = kPlayer2 := by
      unfold winnerOf; split
      · exact Or.inl rfl
      · exact Or.inr rfl
    cases hw : CheckWin (incMoveCount s1) mv with
    | true =>
      rw [hwin hw, Option.some_bind, playLoop_done _ _ _ _ _ rfl]
      refine ⟨_, _, _, rfl, by simp, ?_, rfl, ?_, ⟨mv, rfl⟩⟩
      · intro e he
        rw [List.mem_singleton.1 he]
        exact ⟨_, _, rfl⟩
      · rcases hwinner with h | h
        · exact Or.inl (by rw [h])
        · exact Or.inr (Or.inl (by rw [h]))
    | false =>
      have hap := hnowin hw hbound
      rw [hap, Option.some_bind]
      by_cases hfull : s.move_count + 1 = N * N
      · simp only [if_pos hfull]
        rw [playLoop_done _ _ _ _ _ rfl]
        refine ⟨_, _, _, rfl, by simp, ?_, rfl, Or.inr (Or.inr rfl), ⟨mv, rfl⟩⟩
        intro e he
        rw [List.mem_singleton.1 he]
        exact ⟨_, _, rfl⟩
      · simp only [if_neg hfull]
        have hap2 : ApplyMove s mv = some (ongoing, swapPlayers (incMoveCount s1)) := by
          rw [hap, if_neg hfull]
        have wf' := ApplyMove_wellFormed wf hap2
        have hseat' := ApplyMove_seated wf hseat hap2
        have hcount' := ApplyMove_counted wf hcount hap2
        have hmc : (swapPlayers (incMoveCount s1)).move_count = s.move_count + 1 := by
          show s1.move_count + 1 = _
          rw [hpl.count]
        obtain ⟨st, s', log, hrun, hlen, hall, hover, hwinr, mv2, hlast⟩ :=
          ih (swapPlayers (incMoveCount s1)) (n + 1) f wf' hseat' hcount' (by omega) (by omega)
            (by omega)
        rw [hrun]
        refine ⟨st, s', LoopEvent.applied mv ongoing :: log, rfl, ?_, ?_, hover, hwinr, mv2, ?_⟩
        · simp only [List.length_cons]; omega
        · intro e he
          rcases List.mem_cons.1 he with h | h
          · exact ⟨_, _, h⟩
          · exact hall e h
        · cases log with
          | nil => cases hlast
          | cons e es => rw [List.getLast?_cons_cons]; exact hlast

/-- No first move on a fresh board of dimension at least 2 completes a line. -/
theorem fresh_move_overflow {N : Nat} (hN : 2 ≤ N) (hbig : INT_MAX < (N : Int) * N)
    (a b : Nat) {mv : BoardPosition}
    (hl : IsSpotLegal (fresh N (some a) (some b)) mv = some true) :
    ApplyMove (fresh N (some a) (some b)) mv = none := by
  have wf := wellFormed_fresh N (some a) (some b)
  obtain ⟨r, c, s1, _, hr, hc, hcell, hset, hpl, _, _⟩ := ApplyMove_legal wf hl a rfl
  refine ApplyMove_overflow wf hset ?_ hbig
  cases hw : CheckWin (incMoveCount s1) mv with
  | false => rfl
  | true =>
    exfalso
    have hline := win_line wf (sumsTrack_fresh N _ _) mv (checkWin_fresh (by omega) _ _ _)
      hr hc hcell hpl hw
    have hm := markOf_ne_blank (fresh N (some a) (some b))
      (fresh N (some a) (some b)).active_player
    have hother : ∀ i j, ¬ (i = r ∧ j = c) → cellAt s1.game_state i j = kBlank := by
      intro i j hij
      rw [hpl.cell i j, if_neg hij, cellAt_fresh]
    rcases hline with h | h | ⟨_, h⟩ | ⟨_, h⟩
    · have hj : ∃ j, j < N ∧ j ≠ c := ⟨if c = 0 then 1 else 0, by split <;> omega,
        by split <;> omega⟩
      obtain ⟨j, hjN, hjc⟩ := hj
      exact hm ((h j hjN).symm.trans (hother r j (fun e => hjc e.2)))
    · have hi : ∃ i, i < N ∧ i ≠ r := ⟨if r = 0 then 1 else 0, by split <;> omega,
        by split <;> omega⟩
      obtain ⟨i, hiN, hir⟩ := hi
      exact hm ((h i hiN).symm.trans (hother i c (fun e => hir e.1)))
    · have hi : ∃ i, i < N ∧ i ≠ r := ⟨if r = 0 then 1 else 0, by split <;> omega,
        by split <;> omega⟩
      obtain ⟨i, hiN, hir⟩ := hi
      exact hm ((h i hiN).symm.trans (hother i i (fun e => hir e.1)))
    · have hi : ∃ i, i < N ∧ i ≠ r := ⟨if r = 0 then 1 else 0, by split <;> omega,
        by split <;> omega⟩
      obtain ⟨i, hiN, hir⟩ := hi
      exact hm ((h i hiN).symm.trans (hother i (N - 1 - i) (fun e => hir e.1)))

/-- On a board whose area exceeds `INT_MAX` the play loop with a well-behaved
first player has no defined result, whatever the fuel. -/
theorem play_overflow {N : Nat} (hN : 2 ≤ N) (hint : (N : Int) ≤ INT_MAX)
    (hbig : INT_MAX < (N : Int) * N) (a b : Nat)
    (heap : Nat → MoveSource) (ha : PicksPossible (heap a)) (fuel : Nat) :
    PlayTicTacToe heap fuel (fresh N (some a) (some b)) = none := by
  unfold PlayTicTacToe
  cases fuel with
  | zero => rfl
  | succ f =>
    have wf := wellFormed_fresh N (some a) (some b)
    have hpos : 0 < N * N := Nat.mul_pos (by omega) (by omega)
    obtain ⟨mv, hmove, hl⟩ := picks_legal wf hint (nonEmptyCount_fresh N _ _).symm
      (by show 0 < N * N; exact hpos) ha 0
    have h := playLoop_apply heap f 0 (fresh N (some a) (some b)) a mv rfl hmove hl
    rw [fresh_move_overflow hN hbig a b hl] at h
    exact h

/-! ## Claims C15 and C19 -/

/-- C15.  In an iteration of the play loop on an ongoing game, when the active
player's `Move` returns no candidate the loop ends at once: the final status
is game-over with the winner field as it was, the state is unchanged, and the
log shows the no-candidate branch alone.  The winner field is then absent,
since the loop starts with an absent winner and every ongoing status returned
by `ApplyMove` has none; an absent winner differs from the value tie. -/
theorem C15_no_candidate_ends_loop (heap : Nat → MoveSource) (fuel n : Nat) (s : TicTacToe)
    (game_result : GameStatus) (a : Nat) (hongoing : game_result.state = kGameOngoing)
    (hact : s.active_player = some a) (hmove : heap a n (GetBoardState s) = some none) :
    playLoop heap (fuel + 1) n s game_result =
        some (⟨kGameOver, game_result.winner⟩, s, [LoopEvent.noCandidate]) ∧
      playLoop heap (fuel + 1) n s ongoing =
        some (⟨kGameOver, none⟩, s, [LoopEvent.noCandidate]) ∧
      (∀ fuel0 s0, PlayTicTacToe heap fuel0 s0 = playLoop heap fuel0 0 s0 ongoing) ∧
      (∀ s0 p st s1, ApplyMove s0 p = some (st, s1) → st.state = kGameOngoing →
        st = ongoing) ∧
      (none : Option GameWinner) ≠ some kTie := by
  refine ⟨?_, ?_, fun _ _ => rfl, ?_, by decide⟩
  · simp only [playLoop, hongoing, hact, hmove, Option.some_bind, if_true]
  · simp only [playLoop, ongoing, hact, hmove, Option.some_bind, if_true]
  · intro s0 p st s1 hap hst
    rcases ApplyMove_inv hap with ⟨_, h, _⟩ | ⟨_, _, _, h, _⟩ | ⟨_, _, _, _, _, h⟩
    · rw [h] at hst; cases hst
    · rw [h] at hst; cases hst
    · rcases h with ⟨_, h⟩ | ⟨_, h⟩
      · rw [h] at hst; cases hst
      · exact h

/-- C15 witness: on a fresh 3 × 3 game whose first player abstains, the loop
ends with game-over and an absent winner, the game untouched. -/
theorem C15_no_candidate_ends_loop_witness :
    PlayTicTacToe (fun _ _ _ => some none) 1 game3 =
      some (⟨kGameOver, none⟩, game3, [LoopEvent.noCandidate]) :=
  (C15_no_candidate_ends_loop (fun _ _ _ => some none) 0 0 game3 ongoing 1 rfl rfl rfl).2.1

/-- C19 (counterexample).  On a fresh board of dimension 46341 with two random
players the play loop has no defined result: the first candidate is legal and
completes no line, and `ApplyMove` then evaluates `width * height`, which
exceeds `INT_MAX`. -/
theorem C19_play_overflows_int :
    INT_MAX < ((46341 : Nat) : Int) * (46341 : Nat) ∧
      PlayTicTacToe (fun _ => RandomPlayer.Move fun _ => 0) (46341 * 46341)
        (fresh 46341 (some 1) (some 2)) = none :=
  ⟨by decide, play_overflow (by decide) (by decide) (by decide) 1 2 _ (randomPlayer_picks _) _⟩

/-- C19 (amended).  For `N ≥ 1` with `N * N ≤ INT_MAX` and two player objects
whose `Move` always answers with a position from `GetPossibleMoves` of the
board shown: the play loop on a fresh game ends within `N * N` iterations;
every iteration called `ApplyMove` on a legal candidate (no illegal candidate,
no missing candidate); and the final status is the game-over status returned
by the last call, a win or a tie. -/
theorem C19_play_terminates (N a b : Nat) (heap : Nat → MoveSource) (fuel : Nat)
    (hN : 1 ≤ N) (hbound : (N : Int) * N ≤ INT_MAX)
    (ha : PicksPossible (heap a)) (hb : PicksPossible (heap b)) (hfuel : N * N ≤ fuel) :
    ∃ st s log, PlayTicTacToe heap fuel (fresh N (some a) (some b)) = some (st, s, log) ∧
      log.length ≤ N * N ∧ (∀ e ∈ log, ∃ mv st', e = LoopEvent.applied mv st') ∧
      st.state = kGameOver ∧
      (st.winner = some kPlayer1 ∨ st.winner = some kPlayer2 ∨ st.winner = some kTie) ∧
      (∃ mv, log.getLast? = some (LoopEvent.applied mv st)) := by
  have hpos : 1 ≤ N * N := Nat.mul_pos hN hN
  exact playLoop_terminates hbound heap ha hb (N * N) (fresh N (some a) (some b)) 0 fuel
    (wellFormed_fresh N _ _) (seated_fresh N a b) (nonEmptyCount_fresh N _ _).symm
    (by show 0 + N * N = N * N; omega) hpos hfuel

/-- C19 witness: two random players on a 3 × 3 board. -/
theorem C19_play_terminates_witness :
    ∃ st s log,
      PlayTicTacToe (fun _ => RandomPlayer.Move fun n => n * 7 + 3) 9 (fresh 3 (some 1) (some 2)) =
        some (st, s, log) ∧
      log.length ≤ 3 * 3 ∧ (∀ e ∈ log, ∃ mv st', e = LoopEvent.applied mv st') ∧
      st.state = kGameOver ∧
      (st.winner = some kPlayer1 ∨ st.winner = some kPlayer2 ∨ st.winner = some kTie) ∧
      (∃ mv, log.getLast? = some (LoopEvent.applied mv st)) :=
  C19_play_terminates 3 1 2 (fun _ => RandomPlayer.Move fun n => n * 7 + 3) 9 (by decide)
    (by decide) (randomPlayer_picks _) (randomPlayer_picks _) (by decide)

/-! ## Claim C20 -/

/-- C20 (code defect).  After the legal moves X (0,2), O (0,0), X (1,1),
O (0,1), X (2,0) on a 3 × 3 game, all returning ongoing, with last move
`m = (2,0)`: the sum test `CheckWin(m)` is false, while the rescan
`CheckRow(m) || CheckCol(m) || CheckDiagonal(m)` is true, because
`CheckDiagonal` finds the anti-diagonal filled with X. -/
theorem C20_sum_test_differs_from_rescan :
    ∃ s, applyMoves game3 antiRun = some (List.replicate 5 ongoing, s) ∧
      CheckWin s ⟨2, 0⟩ = false ∧
      CheckRow s ⟨2, 0⟩ = some false ∧ CheckCol s ⟨2, 0⟩ = some false ∧
      CheckDiagonal s ⟨2, 0⟩ = some true ∧ rescanWin s ⟨2, 0⟩ = some true := by
  refine ⟨_, rfl, ?_, ?_, ?_, ?_, ?_⟩ <;> decide

end TicTacToe
